import Mathlib

/-!
Verification of the three-player Squava engine.

Bitboards (Go `uint64`) are modelled as `Nat` values below `2 ^ 64`; every
left shift is reduced modulo `2 ^ 64` (Go wraps shifted-out bits), and the
bitwise complement `^x` of Go is modelled as `Full ^^^ x`.  Definitions
follow the Go sources (`squava.go`, `winslosses_amd64.s`, the test file and
the wasm front end) block by block; definitions whose Go source is not part
of the repository snapshot are marked `Modelled from the spec:`.
-/

namespace Squava

/-- Bitboard file constants from the source. -/
def FileA : Nat := 0x0101010101010101

def FileB : Nat := FileA <<< 1

def FileC : Nat := FileA <<< 2

def FileD : Nat := FileA <<< 3

def FileE : Nat := FileA <<< 4

def FileF : Nat := FileA <<< 5

def FileG : Nat := FileA <<< 6

def FileH : Nat := 0x8080808080808080

def Full : Nat := 0xFFFFFFFFFFFFFFFF

/-- Go bitwise complement on `uint64`: `^x = Full ^^^ x`. -/
def compl64 (x : Nat) : Nat := Full ^^^ x

/-- Go left shift on `uint64`: shifted-out bits wrap away modulo `2 ^ 64`. -/
def shl64 (x k : Nat) : Nat := (x <<< k) % 2 ^ 64

/-- Board with three per-player stone masks plus the occupancy mask,
from `squava.go`. -/
structure Board where
  P1 : Nat := 0
  P2 : Nat := 0
  P3 : Nat := 0
  Occupied : Nat := 0
  deriving Repr, DecidableEq

/-- Move as a (row, column) pair, from `squava.go`. -/
structure Move where
  r : Nat
  c : Nat
  deriving Repr, DecidableEq

def Move.ToIndex (m : Move) : Nat := m.r * 8 + m.c

def MoveFromIndex (idx : Nat) : Move := ⟨idx / 8, idx % 8⟩

/-- Translation of `Board.Set`: occupy cell `idx` for player `pID`
(`Occupied` is always updated; only ids 0, 1, 2 touch a player mask). -/
def Board.Set (b : Board) (idx : Nat) (pID : Int) : Board :=
  let mask := shl64 1 idx
  let b := { b with Occupied := b.Occupied ||| mask }
  if pID = 0 then { b with P1 := b.P1 ||| mask }
  else if pID = 1 then { b with P2 := b.P2 ||| mask }
  else if pID = 2 then { b with P3 := b.P3 ||| mask }
  else b

/-- Translation of `Board.GetPlayerBoard`. -/
def Board.GetPlayerBoard (b : Board) (pID : Int) : Nat :=
  if pID = 0 then b.P1
  else if pID = 1 then b.P2
  else if pID = 2 then b.P3
  else 0

/-- Translation of `CheckWin` (`squava.go`, lines 100-118): shift-and-AND
detection of a four-in-a-row in any of the four directions. -/
def CheckWin (bb : Nat) : Bool :=
  let h := bb &&& (bb >>> 1) &&& compl64 FileH
  let v := bb &&& (bb >>> 8)
  let d1 := bb &&& (bb >>> 9) &&& compl64 FileH
  let d2 := bb &&& (bb >>> 7) &&& compl64 FileA
  (h &&& (h >>> 2) &&& compl64 (FileH ||| (FileH >>> 1)) != 0) ||
  (v &&& (v >>> 16) != 0) ||
  (d1 &&& (d1 >>> 18) &&& compl64 (FileH ||| (FileH >>> 9)) != 0) ||
  (d2 &&& (d2 >>> 14) &&& compl64 (FileA ||| (FileA >>> 7)) != 0)

/-- Translation of `CheckLose` (`squava.go`, lines 120-138): shift-and-AND
detection of a three-in-a-row in any of the four directions. -/
def CheckLose (bb : Nat) : Bool :=
  let h := bb &&& (bb >>> 1) &&& compl64 FileH
  let v := bb &&& (bb >>> 8)
  let d1 := bb &&& (bb >>> 9) &&& compl64 FileH
  let d2 := bb &&& (bb >>> 7) &&& compl64 FileA
  (h &&& (h >>> 1) &&& compl64 FileH != 0) ||
  (v &&& (v >>> 8) != 0) ||
  (d1 &&& (d1 >>> 9) &&& compl64 FileH != 0) ||
  (d2 &&& (d2 >>> 7) &&& compl64 FileA != 0)

/-- Result of one simulated move, from `squava.go` (`State`). -/
structure State where
  board : Board
  nextPlayerID : Int
  remainingPlayers : List Int
  winnerID : Int
  deriving Repr, DecidableEq

/-- Index of `x` in `l` by the Go loop `pIdx := 0; for i, id := range l { if id == x
\x7b pIdx = i; break \x7d }`: first occurrence, defaulting to 0 when absent. -/
def findIdxOr0 (l : List Int) (x : Int) : Nat :=
  let i := l.findIdx (· == x)
  if i < l.length then i else 0

/-- Translation of `SimulateStep` (`squava.go`, lines 685-720): place the stone,
then check win first, elimination second, otherwise pass to the next player. -/
def SimulateStep (board : Board) (players : List Int) (currentID : Int) (move : Move) :
    State :=
  let newBoard := board.Set move.ToIndex currentID
  let pIdx := findIdxOr0 players currentID
  if CheckWin (newBoard.GetPlayerBoard currentID) then
    { board := newBoard, nextPlayerID := -1, remainingPlayers := players,
      winnerID := currentID }
  else if CheckLose (newBoard.GetPlayerBoard currentID) then
    let newPlayers := players.eraseIdx pIdx
    if newPlayers.length = 1 then
      { board := newBoard, nextPlayerID := -1, remainingPlayers := newPlayers,
        winnerID := newPlayers.getD 0 0 }
    else
      let pIdx2 := if pIdx ≥ newPlayers.length then 0 else pIdx
      { board := newBoard, nextPlayerID := newPlayers.getD pIdx2 0,
        remainingPlayers := newPlayers, winnerID := -1 }
  else
    { board := newBoard, nextPlayerID := players.getD ((pIdx + 1) % players.length) 0,
      remainingPlayers := players, winnerID := -1 }

/-- Per-direction block of `GetWinningMoves` (`squava.go`, lines 140-397).
For shift distance `d` and the six wrap masks of the direction, the four
patterns `XXX.`, `.XXX`, `XX.X`, `X.XX` are extracted exactly as in the
source; the vertical block, which has no masks in the source, is obtained
by passing `Full` (a no-op mask on `uint64` values). -/
def dirThreats (myBB d : Nat) (mR1 mR2 mR3 mL1 mL2 mL3 : Nat) : Nat :=
  let r1 := (myBB >>> d) &&& mR1
  let r2 := (myBB >>> (2 * d)) &&& mR2
  let r3 := (myBB >>> (3 * d)) &&& mR3
  let p1 := shl64 (myBB &&& r1 &&& r2) (3 * d) &&& mL3
  let p2 := r1 &&& r2 &&& r3
  let p3 := shl64 (myBB &&& r1 &&& r3) (2 * d) &&& mL2
  let p4 := shl64 (myBB &&& r2 &&& r3) d &&& mL1
  p1 ||| p2 ||| p3 ||| p4

/-- Core of `GetWinningMoves` on raw bitboards: the four direction blocks
of the source (horizontal `+1`, vertical `+8`, diagonal `+9`,
anti-diagonal `+7`) OR-ed together and intersected with the empty mask. -/
def getWinningMovesBB (myBB empty : Nat) : Nat :=
  (dirThreats myBB 1 (compl64 FileH) (compl64 (FileH ||| FileG))
      (compl64 (FileH ||| FileG ||| FileF)) (compl64 FileA)
      (compl64 (FileA ||| FileB)) (compl64 (FileA ||| FileB ||| FileC)) |||
   dirThreats myBB 8 Full Full Full Full Full Full |||
   dirThreats myBB 9 (compl64 FileH) (compl64 (FileH ||| FileG))
      (compl64 (FileH ||| FileG ||| FileF)) (compl64 FileA)
      (compl64 (FileA ||| FileB)) (compl64 (FileA ||| FileB ||| FileC)) |||
   dirThreats myBB 7 (compl64 FileA) (compl64 (FileA ||| FileB))
      (compl64 (FileA ||| FileB ||| FileC)) (compl64 FileH)
      (compl64 (FileH ||| FileG)) (compl64 (FileH ||| FileG ||| FileF))) &&& empty

/-- Translation of `GetWinningMoves` (`squava.go`): winning cells of `pID`
against the complement of the occupancy mask. -/
def GetWinningMoves (board : Board) (pID : Int) : Nat :=
  getWinningMovesBB (board.GetPlayerBoard pID) (compl64 board.Occupied)

/-- Single lane of the AVX2 loss computation
(`winslosses_amd64.s`): `e & (r1&r2 | r1&l1 | l1&l2)` with the per-lane
shift distance `s` and the wrap masks of the lane's direction. -/
def laneL (b e s : Nat) (mR1 mR2 mL1 mL2 : Nat) : Nat :=
  let r1 := (b >>> s) &&& mR1
  let r2 := (b >>> (2 * s)) &&& mR2
  let l1 := shl64 b s &&& mL1
  let l2 := shl64 b (2 * s) &&& mL2
  e &&& ((r1 &&& r2) ||| (r1 &&& l1) ||| (l1 &&& l2))

/-- Single lane of the AVX2 win computation (`winslosses_amd64.s`):
`e & (r1&r2&(r3|l1) | l1&l2&(r1|l3))`. -/
def laneW (b e s : Nat) (mR1 mR2 mR3 mL1 mL2 mL3 : Nat) : Nat :=
  let r1 := (b >>> s) &&& mR1
  let r2 := (b >>> (2 * s)) &&& mR2
  let r3 := (b >>> (3 * s)) &&& mR3
  let l1 := shl64 b s &&& mL1
  let l2 := shl64 b (2 * s) &&& mL2
  let l3 := shl64 b (3 * s) &&& mL3
  e &&& ((r1 &&& r2 &&& (r3 ||| l1)) ||| (l1 &&& l2 &&& (r1 ||| l3)))

/-- Translation of `getWinsAndLossesAVX2` (`winslosses_amd64.s`): the four
lanes (horizontal 1, vertical 8, diagonal 9, anti-diagonal 7, with the
mask tables `maskR1`..`maskL3` of the DATA section) OR-reduced into one
64-bit win mask and one loss mask. -/
def getWinsAndLossesAVX2 (b e : Nat) : Nat × Nat :=
  (laneW b e 1 0x7F7F7F7F7F7F7F7F 0x3F3F3F3F3F3F3F3F 0x1F1F1F1F1F1F1F1F
      0xFEFEFEFEFEFEFEFE 0xFCFCFCFCFCFCFCFC 0xF8F8F8F8F8F8F8F8 |||
   laneW b e 8 Full Full Full Full Full Full |||
   laneW b e 9 0x7F7F7F7F7F7F7F7F 0x3F3F3F3F3F3F3F3F 0x1F1F1F1F1F1F1F1F
      0xFEFEFEFEFEFEFEFE 0xFCFCFCFCFCFCFCFC 0xF8F8F8F8F8F8F8F8 |||
   laneW b e 7 0xFEFEFEFEFEFEFEFE 0xFCFCFCFCFCFCFCFC 0xF8F8F8F8F8F8F8F8
      0x7F7F7F7F7F7F7F7F 0x3F3F3F3F3F3F3F3F 0x1F1F1F1F1F1F1F1F,
   laneL b e 1 0x7F7F7F7F7F7F7F7F 0x3F3F3F3F3F3F3F3F
      0xFEFEFEFEFEFEFEFE 0xFCFCFCFCFCFCFCFC |||
   laneL b e 8 Full Full Full Full |||
   laneL b e 9 0x7F7F7F7F7F7F7F7F 0x3F3F3F3F3F3F3F3F
      0xFEFEFEFEFEFEFEFE 0xFCFCFCFCFCFCFCFC |||
   laneL b e 7 0xFEFEFEFEFEFEFEFE 0xFCFCFCFCFCFCFCFC
      0x7F7F7F7F7F7F7F7F 0x3F3F3F3F3F3F3F3F)

/-- Modelled from the spec: the Go wrapper `GetWinsAndLosses` around the
AVX2 kernel is not part of the repository snapshot (only its callers and
tests are).  Per the spec (section 4.1), a cell present in both the win
set and the lose set is treated as a win: `lose &= !wins`. -/
def GetWinsAndLosses (b e : Nat) : Nat × Nat :=
  let wl := getWinsAndLossesAVX2 b e
  (wl.1, wl.2 &&& compl64 wl.1)

/-- Direction list of `slowGetWinsAndLosses` (test file): horizontal,
vertical, diagonal, anti-diagonal as (dr, dc) pairs. -/
def slowDirections : List (Int × Int) := [(0, 1), (1, 0), (1, 1), (1, -1)]

/-- Bound check `0 <= z < 8` used by the naive enumeration. -/
def inRange8 (z : Int) : Bool := decide (0 ≤ z) && decide (z < 8)

/-- Inner counting loop of `slowGetWinsAndLosses`: the number of positions
among `len` consecutive steps from offset `so` that are on the board and
hold either the candidate cell itself or a stone of `b`. -/
def slowCount (b : Nat) (r c dr dc so : Int) (len : Nat) : Nat :=
  ((List.range len).map fun (k : Nat) =>
    let nr := r + (so + (k : Int)) * dr
    let nc := c + (so + (k : Int)) * dc
    if inRange8 nr && inRange8 nc &&
        ((decide (nr = r) && decide (nc = c)) || b.testBit (nr * 8 + nc).toNat)
      then 1 else 0).sum

/-- Naive win check for one empty cell (test file): some direction and some
start offset in `[-3, 0]` give a full run of four. -/
def cellWin (b : Nat) (i : Nat) : Bool :=
  slowDirections.any fun d =>
    [(-3 : Int), -2, -1, 0].any fun so =>
      decide (slowCount b (↑(i / 8)) (↑(i % 8)) d.1 d.2 so 4 = 4)

/-- Naive loss check for one empty cell (test file): some direction and
some start offset in `[-2, 0]` give a full run of three. -/
def cellLose (b : Nat) (i : Nat) : Bool :=
  slowDirections.any fun d =>
    [(-2 : Int), -1, 0].any fun so =>
      decide (slowCount b (↑(i / 8)) (↑(i % 8)) d.1 d.2 so 3 = 3)

/-- Forward neighbor variable: the stone bit at distance `o` after cell
`i`, false when the position leaves the 64-cell word. -/
def xvar (b i o : Nat) : Bool := decide (o + i < 64) && b.testBit (o + i)

/-- Backward neighbor variable: the stone bit at distance `o` before cell
`i`, false when the position would be negative. -/
def yvar (b i o : Nat) : Bool := decide (o ≤ i) && b.testBit (i - o)

/-- Selector mapping a signed step `t` of a line to the six neighbor
variables of the direction (`t = 0`, the candidate cell itself, is
handled by the caller and mapped to `true`). -/
def sel6 (y3 y2 y1 x1 x2 x3 : Bool) (t : Int) : Bool :=
  if t = -3 then y3 else if t = -2 then y2 else if t = -1 then y1
  else if t = 1 then x1 else if t = 2 then x2 else if t = 3 then x3 else true

/-- Per-bit form of the naive win check for a single direction, with the
six neighbor reads abstracted as booleans. -/
def slowWinVar (r c dr dc : Int) (y3 y2 y1 x1 x2 x3 : Bool) : Bool :=
  [(-3 : Int), -2, -1, 0].any fun so =>
    decide ((((List.range 4).map fun (k : Nat) =>
      let nr := r + (so + (k : Int)) * dr
      let nc := c + (so + (k : Int)) * dc
      if inRange8 nr && inRange8 nc &&
          ((decide (nr = r) && decide (nc = c)) ||
            sel6 y3 y2 y1 x1 x2 x3 (so + (k : Int)))
        then (1 : Nat) else 0).sum) = 4)

/-- Per-bit form of the naive loss check for a single direction, with the
four neighbor reads abstracted as booleans. -/
def slowLoseVar (r c dr dc : Int) (y2 y1 x1 x2 : Bool) : Bool :=
  [(-2 : Int), -1, 0].any fun so =>
    decide ((((List.range 3).map fun (k : Nat) =>
      let nr := r + (so + (k : Int)) * dr
      let nc := c + (so + (k : Int)) * dc
      if inRange8 nr && inRange8 nc &&
          ((decide (nr = r) && decide (nc = c)) ||
            sel6 false y2 y1 x1 x2 false (so + (k : Int)))
        then (1 : Nat) else 0).sum) = 3)

/-- Per-bit form of one direction block of `GetWinningMoves`, with the six
neighbor reads abstracted; the shape mirrors the testBit expansion of
`dirThreats` exactly. -/
def FdirW (d i : Nat) (mR1 mR2 mR3 mL1 mL2 mL3 : Nat)
    (y3 y2 y1 x1 x2 x3 : Bool) : Bool :=
  decide (i < 64) &&
      (decide (3 * d ≤ i) &&
        (y3 && (y2 && mR1.testBit (i - 3 * d)) && (y1 && mR2.testBit (i - 3 * d)))) &&
    mL3.testBit i ||
  x1 && mR1.testBit i && (x2 && mR2.testBit i) && (x3 && mR3.testBit i) ||
  decide (i < 64) &&
      (decide (2 * d ≤ i) &&
        (y2 && (y1 && mR1.testBit (i - 2 * d)) && (x1 && mR3.testBit (i - 2 * d)))) &&
    mL2.testBit i ||
  decide (i < 64) &&
      (decide (d ≤ i) &&
        (y1 && (x1 && mR2.testBit (i - d)) && (x2 && mR3.testBit (i - d)))) &&
    mL1.testBit i

/-- Per-bit form of one AVX2 win lane, neighbor reads abstracted; the
shape mirrors the testBit expansion of `laneW` exactly. -/
def FlaneW (i : Nat) (mR1 mR2 mR3 mL1 mL2 mL3 : Nat)
    (y3 y2 y1 x1 x2 x3 : Bool) : Bool :=
  x1 && mR1.testBit i && (x2 && mR2.testBit i) &&
      (x3 && mR3.testBit i || decide (i < 64) && y1 && mL1.testBit i) ||
  decide (i < 64) && y1 && mL1.testBit i &&
      (decide (i < 64) && y2 && mL2.testBit i) &&
    (x1 && mR1.testBit i || decide (i < 64) && y3 && mL3.testBit i)

/-- Per-bit form of one AVX2 loss lane, neighbor reads abstracted; the
shape mirrors the testBit expansion of `laneL` exactly. -/
def FlaneL (i : Nat) (mR1 mR2 mL1 mL2 : Nat) (y2 y1 x1 x2 : Bool) : Bool :=
  x1 && mR1.testBit i && (x2 && mR2.testBit i) ||
  x1 && mR1.testBit i && (decide (i < 64) && y1 && mL1.testBit i) ||
  decide (i < 64) && y1 && mL1.testBit i &&
    (decide (i < 64) && y2 && mL2.testBit i)


/-- Arithmetic normal form of the naive win check in the horizontal
direction (0, 1) at column `col`, neighbor reads abstracted. -/
def slowWH (col : Nat) (y3 y2 y1 x1 x2 x3 : Bool) : Bool :=
  decide ((3 ≤ col ∧ y3 = true) ∧ (2 ≤ col ∧ y2 = true) ∧ (1 ≤ col ∧ y1 = true) ∨
    (2 ≤ col ∧ y2 = true) ∧ (1 ≤ col ∧ y1 = true) ∧ (col + 1 < 8 ∧ x1 = true) ∨
    (1 ≤ col ∧ y1 = true) ∧ (col + 1 < 8 ∧ x1 = true) ∧ (col + 2 < 8 ∧ x2 = true) ∨
    (col + 1 < 8 ∧ x1 = true) ∧ (col + 2 < 8 ∧ x2 = true) ∧ (col + 3 < 8 ∧ x3 = true))

/-- Arithmetic normal form of the naive win check in the vertical
direction (1, 0) at row `row`, neighbor reads abstracted. -/
def slowWV (row : Nat) (y3 y2 y1 x1 x2 x3 : Bool) : Bool :=
  decide ((3 ≤ row ∧ y3 = true) ∧ (2 ≤ row ∧ y2 = true) ∧ (1 ≤ row ∧ y1 = true) ∨
    (2 ≤ row ∧ y2 = true) ∧ (1 ≤ row ∧ y1 = true) ∧ (row + 1 < 8 ∧ x1 = true) ∨
    (1 ≤ row ∧ y1 = true) ∧ (row + 1 < 8 ∧ x1 = true) ∧ (row + 2 < 8 ∧ x2 = true) ∨
    (row + 1 < 8 ∧ x1 = true) ∧ (row + 2 < 8 ∧ x2 = true) ∧ (row + 3 < 8 ∧ x3 = true))

/-- Arithmetic normal form of the naive win check in the diagonal
direction (1, 1), neighbor reads abstracted. -/
def slowWD (row col : Nat) (y3 y2 y1 x1 x2 x3 : Bool) : Bool :=
  decide (((3 ≤ row ∧ 3 ≤ col) ∧ y3 = true) ∧ ((2 ≤ row ∧ 2 ≤ col) ∧ y2 = true) ∧
      ((1 ≤ row ∧ 1 ≤ col) ∧ y1 = true) ∨
    ((2 ≤ row ∧ 2 ≤ col) ∧ y2 = true) ∧ ((1 ≤ row ∧ 1 ≤ col) ∧ y1 = true) ∧
      ((row + 1 < 8 ∧ col + 1 < 8) ∧ x1 = true) ∨
    ((1 ≤ row ∧ 1 ≤ col) ∧ y1 = true) ∧ ((row + 1 < 8 ∧ col + 1 < 8) ∧ x1 = true) ∧
      ((row + 2 < 8 ∧ col + 2 < 8) ∧ x2 = true) ∨
    ((row + 1 < 8 ∧ col + 1 < 8) ∧ x1 = true) ∧
      ((row + 2 < 8 ∧ col + 2 < 8) ∧ x2 = true) ∧
      ((row + 3 < 8 ∧ col + 3 < 8) ∧ x3 = true))

/-- Arithmetic normal form of the naive win check in the anti-diagonal
direction (1, -1), neighbor reads abstracted. -/
def slowWA (row col : Nat) (y3 y2 y1 x1 x2 x3 : Bool) : Bool :=
  decide (((3 ≤ row ∧ col + 3 < 8) ∧ y3 = true) ∧ ((2 ≤ row ∧ col + 2 < 8) ∧ y2 = true) ∧
      ((1 ≤ row ∧ col + 1 < 8) ∧ y1 = true) ∨
    ((2 ≤ row ∧ col + 2 < 8) ∧ y2 = true) ∧ ((1 ≤ row ∧ col + 1 < 8) ∧ y1 = true) ∧
      ((row + 1 < 8 ∧ 1 ≤ col) ∧ x1 = true) ∨
    ((1 ≤ row ∧ col + 1 < 8) ∧ y1 = true) ∧ ((row + 1 < 8 ∧ 1 ≤ col) ∧ x1 = true) ∧
      ((row + 2 < 8 ∧ 2 ≤ col) ∧ x2 = true) ∨
    ((row + 1 < 8 ∧ 1 ≤ col) ∧ x1 = true) ∧ ((row + 2 < 8 ∧ 2 ≤ col) ∧ x2 = true) ∧
      ((row + 3 < 8 ∧ 3 ≤ col) ∧ x3 = true))

/-- Arithmetic normal form of the naive loss check in the horizontal
direction (0, 1) at column `col`, neighbor reads abstracted. -/
def slowLH (col : Nat) (y2 y1 x1 x2 : Bool) : Bool :=
  decide ((2 ≤ col ∧ y2 = true) ∧ (1 ≤ col ∧ y1 = true) ∨
    (1 ≤ col ∧ y1 = true) ∧ (col + 1 < 8 ∧ x1 = true) ∨
    (col + 1 < 8 ∧ x1 = true) ∧ (col + 2 < 8 ∧ x2 = true))

/-- Arithmetic normal form of the naive loss check in the vertical
direction (1, 0) at row `row`, neighbor reads abstracted. -/
def slowLV (row : Nat) (y2 y1 x1 x2 : Bool) : Bool :=
  decide ((2 ≤ row ∧ y2 = true) ∧ (1 ≤ row ∧ y1 = true) ∨
    (1 ≤ row ∧ y1 = true) ∧ (row + 1 < 8 ∧ x1 = true) ∨
    (row + 1 < 8 ∧ x1 = true) ∧ (row + 2 < 8 ∧ x2 = true))

/-- Arithmetic normal form of the naive loss check in the diagonal
direction (1, 1), neighbor reads abstracted. -/
def slowLD (row col : Nat) (y2 y1 x1 x2 : Bool) : Bool :=
  decide (((2 ≤ row ∧ 2 ≤ col) ∧ y2 = true) ∧ ((1 ≤ row ∧ 1 ≤ col) ∧ y1 = true) ∨
    ((1 ≤ row ∧ 1 ≤ col) ∧ y1 = true) ∧ ((row + 1 < 8 ∧ col + 1 < 8) ∧ x1 = true) ∨
    ((row + 1 < 8 ∧ col + 1 < 8) ∧ x1 = true) ∧ ((row + 2 < 8 ∧ col + 2 < 8) ∧ x2 = true))

/-- Arithmetic normal form of the naive loss check in the anti-diagonal
direction (1, -1), neighbor reads abstracted. -/
def slowLA (row col : Nat) (y2 y1 x1 x2 : Bool) : Bool :=
  decide (((2 ≤ row ∧ col + 2 < 8) ∧ y2 = true) ∧ ((1 ≤ row ∧ col + 1 < 8) ∧ y1 = true) ∨
    ((1 ≤ row ∧ col + 1 < 8) ∧ y1 = true) ∧ ((row + 1 < 8 ∧ 1 ≤ col) ∧ x1 = true) ∨
    ((row + 1 < 8 ∧ 1 ≤ col) ∧ x1 = true) ∧ ((row + 2 < 8 ∧ 2 ≤ col) ∧ x2 = true))


/-- Conjunction of a Bool predicate over both Bool values. -/
def allBool (p : Bool → Bool) : Bool := p false && p true

/-- Conjunction of a Bool predicate over the naturals below `n`. -/
def ballB (n : Nat) (p : Nat → Bool) : Bool := (List.range n).all p

/-- Per-cell accumulation step of `slowGetWinsAndLosses`: skip occupied
cells, record a win (skipping the loss check), else record a loss. -/
def slowStep (bb empty : Nat) (acc : Nat × Nat) (i : Nat) : Nat × Nat :=
  if !empty.testBit i then acc
  else if cellWin bb i then (acc.1 ||| shl64 1 i, acc.2)
  else if cellLose bb i then (acc.1, acc.2 ||| shl64 1 i)
  else acc

/-- Translation of `slowGetWinsAndLosses` (test file, lines 35-113): the
naive per-cell enumeration over all 64 cells, with the final
`l & ^w` masking. -/
def slowGetWinsAndLosses (bb empty : Nat) : Nat × Nat :=
  let wl := (List.range 64).foldl (slowStep bb empty) (0, 0)
  (wl.1, wl.2 &&& compl64 wl.1)

/-- Population count, the model of `bits.OnesCount64` on `uint64` values. -/
def popCount (x : Nat) : Nat :=
  if h : x = 0 then 0 else x % 2 + popCount (x / 2)
decreasing_by exact Nat.div_lt_self (Nat.pos_of_ne_zero h) Nat.one_lt_two

/-- Model of `bits.TrailingZeros64`: index of the least set bit, 64 when none. -/
def trailingZeros64 (x : Nat) : Nat := (List.range 64).findIdx (x.testBit ·)

/-- Bit-extraction loop shared by `GetValidMoves` and `GetPossibleMoves`:
repeatedly take the lowest set bit and clear it (`combined &= ^(1 << idx)`).
The loop of the source runs until the mask is zero; 64 iterations always
suffice for a `uint64`, so the fuel only mirrors that bound. -/
def popBits : Nat → Nat → List Nat
  | 0, _ => []
  | fuel + 1, x =>
    if x = 0 then []
    else
      let idx := trailingZeros64 x
      idx :: popBits fuel (x &&& compl64 (shl64 1 idx))

/-- Translation of `GetValidMoves` (`squava.go`, lines 399-416): `none`
models the Go `nil` result (no restriction); otherwise the forced cells
`threats ||| myWins` are extracted lowest bit first. -/
def GetValidMoves (board : Board) (currentPID nextPID : Int) : Option (List Move) :=
  let threats := GetWinningMoves board nextPID
  let myWins := GetWinningMoves board currentPID
  if threats = 0 then none
  else some ((popBits 64 (threats ||| myWins)).map MoveFromIndex)

/-- Modelled from the spec (section 3): the full game state of the engine
file, which is not part of the repository snapshot (only its callers in
`main_wasm.go` and `ui_cli.go` are): a `Board`, the id of the player to
move, the three-bit active mask, the cached Zobrist hash and the cached
winner id (-1 when nonterminal or draw). -/
structure GameState where
  board : Board
  PlayerID : Int
  ActiveMask : Nat
  Hash : Nat
  WinnerID : Int
  deriving Repr, DecidableEq

/-- Modelled from the spec: the clockwise list of still-active player ids,
read from the low three bits of `ActiveMask`. -/
def GameState.ActiveIDs (gs : GameState) : List Int :=
  ([0, 1, 2] : List Int).filter fun i => gs.ActiveMask.testBit i.toNat

/-- Modelled from the spec (section 3): a fixed per-key Zobrist table; the
spec only requires precomputed 64-bit keys, so an arbitrary fixed table
is used. -/
def zobristKey (tag : Nat) : Nat := ((tag + 1) * 0x9E3779B97F4A7C15) % 2 ^ 64

/-- Modelled from the spec (section 3): the Zobrist hash is the XOR of a
turn key (index of the mover among active players), an active-mask key,
and one (cell, player) key per occupied cell. -/
def ZobristHash (board : Board) (turnIdx : Nat) (activeMask : Nat) : Nat :=
  (List.range 64).foldl
    (fun h cell =>
      let h := if board.P1.testBit cell then h ^^^ zobristKey (cell * 3 + 0) else h
      let h := if board.P2.testBit cell then h ^^^ zobristKey (cell * 3 + 1) else h
      if board.P3.testBit cell then h ^^^ zobristKey (cell * 3 + 2) else h)
    (zobristKey (200 + turnIdx) ^^^ zobristKey (300 + activeMask))

/-- Modelled from the spec (section 6): `new_game` state with all three
players active. -/
def NewGameState (board : Board) (pID : Int) (activeMask : Nat) : GameState :=
  { board := board, PlayerID := pID, ActiveMask := activeMask,
    Hash := ZobristHash board
      (findIdxOr0 (([0, 1, 2] : List Int).filter fun i => activeMask.testBit i.toNat) pID)
      activeMask,
    WinnerID := -1 }

/-- Modelled from the spec (section 4.3): the forced-move mask.  The
threats of the immediately-next active player; when nonzero, unioned with
the mover's own winning cells. -/
def GetForcedMoves (board : Board) (activeIDs : List Int) (turnIdx : Nat) : Nat :=
  let curr := activeIDs.getD turnIdx 0
  let next := activeIDs.getD ((turnIdx + 1) % activeIDs.length) 0
  let empty := compl64 board.Occupied
  let threats := (GetWinsAndLosses (board.GetPlayerBoard next) empty).1
  if threats = 0 then 0
  else threats ||| (GetWinsAndLosses (board.GetPlayerBoard curr) empty).1

/-- Modelled from the spec (section 3): the next still-active player id
clockwise after `p` under `mask`. -/
def nextActive (mask : Nat) (p : Int) : Int :=
  if mask.testBit ((p + 1) % 3).toNat then (p + 1) % 3
  else if mask.testBit ((p + 2) % 3).toNat then (p + 2) % 3
  else p

/-- Modelled from the spec (section 4.4): the successor function
`apply_move` of the engine `GameState`.  Set the stone; on four-in-a-row
the mover wins and the state is terminal; on three-in-a-row the mover's
bit is cleared from the active mask (a single survivor wins); otherwise
play passes clockwise.  The hash is recomputed from the new position,
which by the spec's own invariant (section 3) equals the incremental
XOR update. -/
def GameState.ApplyMove (gs : GameState) (move : Move) : GameState :=
  let nb := gs.board.Set move.ToIndex gs.PlayerID
  if CheckWin (nb.GetPlayerBoard gs.PlayerID) then
    { board := nb, PlayerID := -1, ActiveMask := gs.ActiveMask,
      Hash := ZobristHash nb 0 gs.ActiveMask, WinnerID := gs.PlayerID }
  else if CheckLose (nb.GetPlayerBoard gs.PlayerID) then
    let newMask := gs.ActiveMask &&& (0xFF ^^^ shl64 1 gs.PlayerID.toNat)
    if popCount newMask = 1 then
      { board := nb, PlayerID := -1, ActiveMask := newMask,
        Hash := ZobristHash nb 0 newMask, WinnerID := trailingZeros64 newMask }
    else
      let np := nextActive newMask gs.PlayerID
      { board := nb, PlayerID := np, ActiveMask := newMask,
        Hash := ZobristHash nb
          (findIdxOr0 (([0, 1, 2] : List Int).filter fun i => newMask.testBit i.toNat) np)
          newMask,
        WinnerID := -1 }
  else
    let np := nextActive gs.ActiveMask gs.PlayerID
    { board := nb, PlayerID := np, ActiveMask := gs.ActiveMask,
      Hash := ZobristHash nb
        (findIdxOr0 gs.ActiveIDs np) gs.ActiveMask,
      WinnerID := -1 }

/-- Translation of `applyMove` (`main_wasm.go`, lines 31-58): reject an
occupied target cell; reject a cell outside a nonempty forced-move mask;
otherwise apply the move.  The boolean mirrors the `js.ValueOf(false)`
failure result. -/
def applyMoveW (gs : GameState) (idx : Nat) : Bool × GameState :=
  let mask := shl64 1 idx
  if gs.board.Occupied &&& mask ≠ 0 then (false, gs)
  else
    let activeIDs := gs.ActiveIDs
    let turnIdx := findIdxOr0 activeIDs gs.PlayerID
    let forced := GetForcedMoves gs.board activeIDs turnIdx
    if forced ≠ 0 ∧ forced &&& shl64 1 idx = 0 then (false, gs)
    else (true, gs.ApplyMove (MoveFromIndex idx))

/-- Translation of `getBestMove` (`main_wasm.go`, lines 73-98) combined
with the spec-modelled fast paths of the engine `GetMove` (section 4.6),
whose Go source is not part of the snapshot: a single forced move is
returned at once; a mover with a winning cell returns its lowest bit; only
otherwise does the tree search run.  The tree search itself is abstracted
as the `search` parameter, so the fast-path results are independent of it. -/
def getBestMoveW (search : Board → List Int → Nat → Move) (gs : GameState) : Nat :=
  let activeIDs := gs.ActiveIDs
  let turnIdx := findIdxOr0 activeIDs gs.PlayerID
  let forced := GetForcedMoves gs.board activeIDs turnIdx
  if forced ≠ 0 ∧ popCount forced = 1 then trailingZeros64 forced
  else
    let myWins := (GetWinsAndLosses (gs.board.GetPlayerBoard gs.PlayerID)
      (compl64 gs.board.Occupied)).1
    if myWins ≠ 0 then trailingZeros64 myWins
    else (search gs.board activeIDs turnIdx).ToIndex

/-- Update step of the best-child loop of `GetMoveWithContext`
(`squava.go`, lines 567-575): keep the child when it strictly beats the
best visit count seen so far (`bestVisits` starts at -1). -/
def selectStep (acc : Int × Move) (mc : Move × Nat) : Int × Move :=
  if (mc.2 : Int) > acc.1 then ((mc.2 : Int), mc.1) else acc

/-- Translation of the final selection loop of `GetMoveWithContext`: the
children of the root are visited in the iteration order of the Go map
`root.children` (which the Go specification leaves unspecified), so the
children are supplied here as a list in iteration order, paired with
their visit counts. -/
def selectBestMove (children : List (Move × Nat)) : Move :=
  (children.foldl selectStep (-1, ⟨0, 0⟩)).2

/-- Translation of `RunSimulation`'s `temp &= temp - 1` selection step. -/
def clearLowestBit (t : Nat) : Nat := t &&& (t - 1)

/-- Outcome of a rollout: the winner's id, or a draw (`map[int]float64{}`). -/
inductive SimResult where
  | winner (p : Int)
  | draw
  deriving Repr, DecidableEq

/-- Translation of `RunSimulation` (`squava.go`, lines 722-788), with an
explicit fuel so the Go `for` loop is a Lean function; `none` is returned
only on fuel exhaustion, which theorem C10 rules out when the fuel
exceeds the number of empty cells.  The `rand.Intn(count)` draw is
modelled as `rng step % count` for an arbitrary stream `rng`, which
ranges over exactly the values `Intn` can produce. -/
def runSimAux (rng : Nat → Nat) :
    Nat → Nat → Board → List Int → Int → Option SimResult
  | 0, _, _, _, _ => none
  | fuel + 1, step, board, simPlayers, curr =>
    if simPlayers.length = 1 then some (.winner (simPlayers.getD 0 0))
    else
      let pIdx := findIdxOr0 simPlayers curr
      let nextP := simPlayers.getD ((pIdx + 1) % simPlayers.length) 0
      let threats := GetWinningMoves board nextP
      let myWins := GetWinningMoves board curr
      let movesBitboard := if threats ≠ 0 then threats ||| myWins
        else compl64 board.Occupied
      if movesBitboard = 0 then some .draw
      else
        let count := popCount movesBitboard
        if count = 0 then some .draw
        else
          let pick := rng step % count
          let temp := clearLowestBit^[pick] movesBitboard
          let selectedIdx := trailingZeros64 temp
          let board2 := board.Set selectedIdx curr
          if CheckWin (board2.GetPlayerBoard curr) then some (.winner curr)
          else if CheckLose (board2.GetPlayerBoard curr) then
            let simPlayers2 := simPlayers.eraseIdx pIdx
            if simPlayers2.length = 1 then some (.winner (simPlayers2.getD 0 0))
            else
              let pIdx2 := if pIdx ≥ simPlayers2.length then 0 else pIdx
              runSimAux rng fuel (step + 1) board2 simPlayers2 (simPlayers2.getD pIdx2 0)
          else
            runSimAux rng fuel (step + 1) board2 simPlayers
              (simPlayers.getD ((pIdx + 1) % simPlayers.length) 0)

/-- The rollout entry point: 65 units of fuel always exceed the number of
empty cells of a `uint64` board, so the fuel never runs out (theorem C10). -/
def RunSimulation (rng : Nat → Nat) (board : Board) (players : List Int)
    (curr : Int) : Option SimResult :=
  runSimAux rng 65 0 board players curr

/-- Step 1 of the last-man-standing sequence: P0 plays cell 0. -/
def seqS1 : State := SimulateStep {} [0, 1, 2] 0 (MoveFromIndex 0)

/-- Step 2 of the last-man-standing sequence: P1 plays cell 8. -/
def seqS2 : State := SimulateStep seqS1.board [0, 1, 2] 1 (MoveFromIndex 8)

/-- Step 3 of the last-man-standing sequence: P0 plays cell 1. -/
def seqS3 : State := SimulateStep seqS2.board [0, 1, 2] 0 (MoveFromIndex 1)

/-- Step 4 of the last-man-standing sequence: P1 plays cell 9. -/
def seqS4 : State := SimulateStep seqS3.board [0, 1, 2] 1 (MoveFromIndex 9)

/-- Step 5 of the last-man-standing sequence: P0 plays cell 2 and is
eliminated (three-in-a-row on A1, B1, C1). -/
def seqS5 : State := SimulateStep seqS4.board [0, 1, 2] 0 (MoveFromIndex 2)

/-- Step 6 of the last-man-standing sequence: P1 plays cell 10 and is
eliminated (three-in-a-row on A2, B2, C2), leaving P2 the winner. -/
def seqS6 : State := SimulateStep seqS5.board seqS5.remainingPlayers 1 (MoveFromIndex 10)

/-- C6: the four-in-a-row detector accepts no run wrapping across a board
edge: the stone set (bits 6, 7, 8, 9), i.e. G1, H1, A2, B2, is not a win,
while the genuine anti-diagonal run (bits 7, 14, 21, 28), i.e. H1, G2, F3,
E4, is a win. -/
theorem C6_checkWin_no_wraparound :
    CheckWin 0x3C0 = false ∧
    CheckWin ((1 <<< 7) ||| (1 <<< 14) ||| (1 <<< 21) ||| (1 <<< 28)) = true := by
  constructor
  · decide
  · decide

/-- C3: when the placed stone simultaneously completes a four-in-a-row and a
three-in-a-row for the mover, `SimulateStep` declares the mover the winner
(terminal state, active set untouched) instead of eliminating them, because
the win check runs before the lose check. -/
theorem C3_win_checked_before_lose (board : Board) (players : List Int)
    (currentID : Int) (move : Move)
    (hw : CheckWin ((board.Set move.ToIndex currentID).GetPlayerBoard currentID) = true)
    (_hl : CheckLose ((board.Set move.ToIndex currentID).GetPlayerBoard currentID) = true) :
    (SimulateStep board players currentID move).winnerID = currentID ∧
    (SimulateStep board players currentID move).remainingPlayers = players ∧
    (SimulateStep board players currentID move).nextPlayerID = -1 := by
  simp [SimulateStep, hw]

/-- Witness for C3 at a concrete input: player 0 holds A1, B1, C1 and plays
D1, which completes both a four-run and a three-run; the result is a win. -/
theorem C3_win_checked_before_lose_witness :
    CheckWin ((Board.Set ⟨7, 0, 0, 7⟩ (Move.ToIndex ⟨0, 3⟩) 0).GetPlayerBoard 0) = true ∧
    CheckLose ((Board.Set ⟨7, 0, 0, 7⟩ (Move.ToIndex ⟨0, 3⟩) 0).GetPlayerBoard 0) = true ∧
    (SimulateStep ⟨7, 0, 0, 7⟩ [0, 1, 2] 0 ⟨0, 3⟩).winnerID = 0 ∧
    (SimulateStep ⟨7, 0, 0, 7⟩ [0, 1, 2] 0 ⟨0, 3⟩).remainingPlayers = [0, 1, 2] ∧
    (SimulateStep ⟨7, 0, 0, 7⟩ [0, 1, 2] 0 ⟨0, 3⟩).nextPlayerID = -1 := by
  refine ⟨by decide, by decide, ?_⟩
  have h := C3_win_checked_before_lose ⟨7, 0, 0, 7⟩ [0, 1, 2] 0 ⟨0, 3⟩ (by decide) (by decide)
  exact ⟨h.1, h.2.1, h.2.2⟩

lemma findIdxOr0_eq_findIdx {l : List Int} {x : Int} (h : x ∈ l) :
    findIdxOr0 l x = l.findIdx (· == x) := by
  have hlt : l.findIdx (· == x) < l.length :=
    List.findIdx_lt_length_of_exists ⟨x, h, by simp⟩
  simp [findIdxOr0, hlt]


/-- C4: a move that gives the mover exactly three-in-a-row (and no
four-in-a-row) removes the mover from the active list; if exactly one
player remains, that player is the winner and the state is terminal,
otherwise the next clockwise active player moves.  In particular the
concrete sequence P0 to 0, P1 to 8, P0 to 1, P1 to 9, P0 to 2, P1 to 10
from the empty board eliminates P0, then P1, and yields winner 2. -/
theorem C4_elimination_and_last_man_standing (board : Board) (players : List Int)
    (curr : Int) (move : Move)
    (hmem : curr ∈ players) (hnd : players.Nodup) (hlen : 2 ≤ players.length)
    (hw : CheckWin ((board.Set move.ToIndex curr).GetPlayerBoard curr) = false)
    (hl : CheckLose ((board.Set move.ToIndex curr).GetPlayerBoard curr) = true) :
    (curr ∉ (SimulateStep board players curr move).remainingPlayers ∧
     (SimulateStep board players curr move).remainingPlayers =
       players.eraseIdx (players.findIdx (· == curr)) ∧
     (players.length = 2 →
       (SimulateStep board players curr move).nextPlayerID = -1 ∧
       (SimulateStep board players curr move).winnerID ∈ players ∧
       (SimulateStep board players curr move).winnerID ≠ curr) ∧
     (2 < players.length →
       (SimulateStep board players curr move).winnerID = -1 ∧
       (SimulateStep board players curr move).nextPlayerID =
         players.getD ((players.findIdx (· == curr) + 1) % players.length) 0)) ∧
    (seqS5.remainingPlayers = [1, 2] ∧ seqS6.remainingPlayers = [2] ∧
     seqS6.winnerID = 2 ∧ seqS6.nextPlayerID = -1) := by
  have hfi := findIdxOr0_eq_findIdx hmem
  set pIdx := players.findIdx (· == curr) with hpIdx
  have hlt : pIdx < players.length := List.findIdx_lt_length_of_exists ⟨curr, hmem, by simp⟩
  have hgetp : players[pIdx] = curr := by
    have := @List.findIdx_getElem _ (· == curr) players hlt
    simpa using this
  have hmin : ∀ j (hj : j < pIdx), ¬ (players[j] == curr) = true := by
    have := (@List.findIdx_eq _ (· == curr) players _ hlt).mp rfl
    exact fun j hj => by simpa using this.2 j hj
  have hlenE : (players.eraseIdx pIdx).length = players.length - 1 :=
    List.length_eraseIdx_of_lt hlt
  have hnotmem : curr ∉ players.eraseIdx pIdx := by
    intro hc
    obtain ⟨j, hj, hget⟩ := List.mem_iff_getElem.mp hc
    rcases Nat.lt_or_ge j pIdx with hcase | hcase
    · have hje := List.getElem_eraseIdx_of_lt players pIdx j hj hcase
      have hpj : players[j] = curr := by rw [← hje, hget]
      exact hmin j hcase (by simp [hpj])
    · have hje := List.getElem_eraseIdx_of_ge players pIdx j hj hcase
      have : players[j + 1] = players[pIdx] := by
        rw [← hje, hget, hgetp]
      have := List.Nodup.getElem_inj_iff hnd |>.mp this
      omega
  have hrem : (SimulateStep board players curr move).remainingPlayers =
      players.eraseIdx pIdx := by
    by_cases hc : (players.eraseIdx pIdx).length = 1 <;>
      simp [SimulateStep, hw, hl, hfi, ← hpIdx, hc]
  refine ⟨⟨hrem ▸ hnotmem, hrem, ?_, ?_⟩, by decide, by decide, by decide, by decide⟩
  · intro h2
    have hc : (players.eraseIdx pIdx).length = 1 := by omega
    have hwin : (SimulateStep board players curr move).winnerID =
        (players.eraseIdx pIdx).getD 0 0 := by
      simp [SimulateStep, hw, hl, hfi, ← hpIdx, hc]
    have hnext : (SimulateStep board players curr move).nextPlayerID = -1 := by
      simp [SimulateStep, hw, hl, hfi, ← hpIdx, hc]
    have hmem0 : (players.eraseIdx pIdx).getD 0 0 ∈ players.eraseIdx pIdx := by
      have h0 : 0 < (players.eraseIdx pIdx).length := by omega
      rw [List.getD_eq_getElem?_getD, List.getElem?_eq_getElem h0]
      exact List.getElem_mem h0
    refine ⟨hnext, ?_, ?_⟩
    · rw [hwin]; exact List.mem_of_mem_eraseIdx hmem0
    · rw [hwin]; intro hEq; exact hnotmem (hEq ▸ hmem0)
  · intro h2
    have hc : ¬ (players.eraseIdx pIdx).length = 1 := by omega
    have hwin : (SimulateStep board players curr move).winnerID = -1 := by
      simp [SimulateStep, hw, hl, hfi, ← hpIdx, hc]
    have hnext : (SimulateStep board players curr move).nextPlayerID =
        (players.eraseIdx pIdx).getD
          (if pIdx ≥ (players.eraseIdx pIdx).length then 0 else pIdx) 0 := by
      simp [SimulateStep, hw, hl, hfi, ← hpIdx, hc]
    refine ⟨hwin, ?_⟩
    rw [hnext]
    rcases Nat.lt_or_ge (pIdx + 1) players.length with hcase | hcase
    · have hpl : pIdx < (players.eraseIdx pIdx).length := by omega
      have : ¬ pIdx ≥ (players.eraseIdx pIdx).length := by omega
      rw [if_neg this, List.getD_eq_getElem?_getD,
        List.getElem?_eraseIdx_of_ge players pIdx pIdx (Nat.le_refl _),
        Nat.mod_eq_of_lt hcase, List.getD_eq_getElem?_getD]
    · have hpe : pIdx = players.length - 1 := by omega
      have hmod : (pIdx + 1) % players.length = 0 := by
        have : pIdx + 1 = players.length := by omega
        simp [this]
      have : pIdx ≥ (players.eraseIdx pIdx).length := by omega
      rw [if_pos this, hmod, List.getD_eq_getElem?_getD,
        List.getElem?_eraseIdx_of_lt players pIdx 0 (by omega),
        List.getD_eq_getElem?_getD]

/-- Witness for C4 at a concrete input: player 0 holds A1, B1 (and player 1
holds A2, B2), player 0 plays C1 creating exactly a three-run; all
hypotheses hold and the theorem applies. -/
theorem C4_elimination_witness :
    ((0 : Int) ∈ ([0, 1, 2] : List Int) ∧ ([0, 1, 2] : List Int).Nodup ∧
     2 ≤ ([0, 1, 2] : List Int).length ∧
     CheckWin ((Board.Set ⟨3, 0x300, 0, 0x303⟩ (Move.ToIndex ⟨0, 2⟩) 0).GetPlayerBoard 0)
       = false ∧
     CheckLose ((Board.Set ⟨3, 0x300, 0, 0x303⟩ (Move.ToIndex ⟨0, 2⟩) 0).GetPlayerBoard 0)
       = true) ∧
    (0 : Int) ∉ (SimulateStep ⟨3, 0x300, 0, 0x303⟩ [0, 1, 2] 0 ⟨0, 2⟩).remainingPlayers := by
  refine ⟨⟨by decide, by decide, by decide, by decide, by decide⟩, ?_⟩
  exact (C4_elimination_and_last_man_standing ⟨3, 0x300, 0, 0x303⟩ [0, 1, 2] 0 ⟨0, 2⟩
    (by decide) (by decide) (by decide) (by decide) (by decide)).1.1

lemma Full_eq : Full = 2 ^ 64 - 1 := by decide

lemma testBit_Full (i : Nat) : Full.testBit i = decide (i < 64) := by
  rw [Full_eq]
  exact Nat.testBit_two_pow_sub_one 64 i

lemma testBit_high_false {x i n : Nat} (hx : x < 2 ^ n) (hi : n ≤ i) :
    x.testBit i = false :=
  Nat.testBit_lt_two_pow (lt_of_lt_of_le hx (Nat.pow_le_pow_right (by norm_num) hi))

lemma testBit_lt_of_lt_two_pow {x i n : Nat} (hx : x < 2 ^ n)
    (hb : x.testBit i = true) : i < n := by
  by_contra h
  rw [testBit_high_false hx (Nat.le_of_not_lt h)] at hb
  exact Bool.false_ne_true hb

lemma testBit_compl64 {x : Nat} (hx : x < 2 ^ 64) (i : Nat) :
    (compl64 x).testBit i = (decide (i < 64) && !x.testBit i) := by
  rw [compl64, Nat.testBit_xor, testBit_Full]
  by_cases h : i < 64
  · simp [h]
  · simp [h, testBit_high_false hx (Nat.le_of_not_lt h)]

lemma testBit_shl64 (x k i : Nat) :
    (shl64 x k).testBit i =
      (decide (i < 64) && (decide (k ≤ i) && x.testBit (i - k))) := by
  rw [shl64, Nat.testBit_mod_two_pow, Nat.testBit_shiftLeft]

lemma shl64_one {i : Nat} (h : i < 64) : shl64 1 i = 2 ^ i := by
  rw [shl64, Nat.shiftLeft_eq, one_mul,
    Nat.mod_eq_of_lt (Nat.pow_lt_pow_right (by norm_num) h)]

lemma exists_testBit_of_ne_zero {x : Nat} (hx : x ≠ 0) :
    ∃ i, x.testBit i = true := by
  by_contra h
  push_neg at h
  exact hx (Nat.eq_of_testBit_eq fun i => by
    simp [Bool.eq_false_iff.mpr (h i)])

lemma trailingZeros64_spec {x : Nat} (hx : x ≠ 0) (hx64 : x < 2 ^ 64) :
    trailingZeros64 x < 64 ∧ x.testBit (trailingZeros64 x) = true ∧
      ∀ j < trailingZeros64 x, x.testBit j = false := by
  obtain ⟨i, hi⟩ := exists_testBit_of_ne_zero hx
  have hi64 : i < 64 := testBit_lt_of_lt_two_pow hx64 hi
  have hlt : (List.range 64).findIdx (x.testBit ·) < (List.range 64).length :=
    List.findIdx_lt_length_of_exists ⟨i, List.mem_range.mpr hi64, hi⟩
  have hlt' : trailingZeros64 x < 64 := by simpa [trailingZeros64] using hlt
  refine ⟨hlt', ?_, ?_⟩
  · have := @List.findIdx_getElem _ (x.testBit ·) (List.range 64) hlt
    simpa [trailingZeros64] using this
  · intro j hj
    have hchar := (@List.findIdx_eq _ (x.testBit ·) (List.range 64) _ hlt).mp rfl
    have hj64 : j < 64 := lt_trans hj hlt'
    have := hchar.2 j (by simpa [trailingZeros64] using hj)
    simpa using this

lemma popCount_zero : popCount 0 = 0 := by simp [popCount]

lemma popCount_ne_zero {x : Nat} (hx : x ≠ 0) :
    popCount x = x % 2 + popCount (x / 2) := by
  rw [popCount]
  simp [hx]

lemma popCount_eq_zero {x : Nat} : popCount x = 0 ↔ x = 0 := by
  constructor
  · intro h
    induction x using Nat.strong_induction_on with
    | _ x ih =>
      by_cases hx : x = 0
      · exact hx
      · rw [popCount_ne_zero hx] at h
        have h2 : x % 2 = 0 := by omega
        have h3 : popCount (x / 2) = 0 := by omega
        have := ih (x / 2) (Nat.div_lt_self (Nat.pos_of_ne_zero hx) Nat.one_lt_two) h3
        omega
  · intro h
    rw [h, popCount_zero]

lemma popCount_eq_countP {n : Nat} : ∀ {x : Nat}, x < 2 ^ n →
    popCount x = (List.range n).countP (x.testBit ·) := by
  induction n with
  | zero =>
    intro x hx
    interval_cases x
    simp [popCount_zero]
  | succ n ih =>
    intro x hx
    by_cases hx0 : x = 0
    · subst hx0
      simp [popCount_zero, List.countP_eq_zero.mpr]
    · have hdiv : x / 2 < 2 ^ n := by
        have h2 : (2 : Nat) ^ (n + 1) = 2 ^ n * 2 := by ring
        rw [h2] at hx
        exact Nat.div_lt_of_lt_mul (by omega)
      rw [popCount_ne_zero hx0, ih hdiv, List.range_succ_eq_map, List.countP_cons,
        List.countP_map]
      have hbit0 : (x.testBit 0 : Bool) = decide (x % 2 = 1) := Nat.testBit_zero x
      have hcomp : ((x.testBit ·) ∘ (· + 1)) = ((x / 2).testBit ·) := by
        funext j
        simp [Nat.testBit_add_one]
      rw [hcomp]
      rcases Nat.mod_two_eq_zero_or_one x with h | h <;> simp [h, hbit0] <;> omega

lemma countP_update {l : List Nat} {p q : Nat → Bool} {i : Nat}
    (hnd : l.Nodup) (hi : i ∈ l) (hag : ∀ j ∈ l, j ≠ i → p j = q j)
    (hpi : p i = false) (hqi : q i = true) :
    l.countP q = l.countP p + 1 := by
  induction l with
  | nil => cases hi
  | cons a t ih =>
    rcases List.mem_cons.mp hi with rfl | hit
    · have hnot : i ∉ t := (List.nodup_cons.mp hnd).1
      have heq : t.countP q = t.countP p := by
        apply List.countP_congr
        intro j hj
        rw [hag j (List.mem_cons_of_mem _ hj) (fun h => hnot (h ▸ hj))]
      rw [List.countP_cons, List.countP_cons, heq, hpi, hqi]
      simp
    · have hai : a ≠ i := by
        rintro rfl
        exact (List.nodup_cons.mp hnd).1 hit
      have := ih (List.nodup_cons.mp hnd).2 hit
        (fun j hj hji => hag j (List.mem_cons_of_mem _ hj) hji)
      rw [List.countP_cons, List.countP_cons, this,
        hag a (List.mem_cons_self _ _) hai]
      omega

lemma popCount_le_64 {x : Nat} (hx : x < 2 ^ 64) : popCount x ≤ 64 := by
  rw [popCount_eq_countP hx]
  calc (List.range 64).countP (x.testBit ·) ≤ (List.range 64).length :=
        List.countP_le_length _
    _ = 64 := List.length_range 64

lemma popCount_or_two_pow {x i : Nat} (hx : x < 2 ^ 64) (hi : i < 64)
    (hb : x.testBit i = false) : popCount (x ||| 2 ^ i) = popCount x + 1 := by
  have h2 : (2 : Nat) ^ i < 2 ^ 64 := Nat.pow_lt_pow_right (by norm_num) hi
  have hor : x ||| 2 ^ i < 2 ^ 64 := Nat.or_lt_two_pow hx h2
  rw [popCount_eq_countP hor, popCount_eq_countP hx]
  apply countP_update (List.nodup_range 64) (List.mem_range.mpr hi)
  · intro j _ hji
    rw [Nat.testBit_or, Nat.testBit_two_pow]
    simp [Ne.symm hji]
  · exact hb
  · rw [Nat.testBit_or, Nat.testBit_two_pow]
    simp

lemma testBit_clearBit {x idx : Nat} (hx : x < 2 ^ 64) (hidx : idx < 64) (j : Nat) :
    (x &&& compl64 (shl64 1 idx)).testBit j = (x.testBit j && !decide (idx = j)) := by
  rw [shl64_one hidx, Nat.testBit_and,
    testBit_compl64 (Nat.pow_lt_pow_right (by norm_num) hidx), Nat.testBit_two_pow]
  by_cases hj : j < 64
  · simp [hj]
  · simp [hj, testBit_high_false hx (Nat.le_of_not_lt hj)]

lemma popCount_clearBit {x idx : Nat} (hx : x < 2 ^ 64) (hidx : idx < 64)
    (hb : x.testBit idx = true) :
    popCount (x &&& compl64 (shl64 1 idx)) + 1 = popCount x := by
  have hand : x &&& compl64 (shl64 1 idx) < 2 ^ 64 := Nat.and_lt_two_pow _
    (by
      rw [shl64_one hidx]
      exact Nat.xor_lt_two_pow (by rw [Full_eq]; omega)
        (Nat.pow_lt_pow_right (by norm_num) hidx))
  rw [popCount_eq_countP hand, popCount_eq_countP hx]
  refine (countP_update (List.nodup_range 64) (List.mem_range.mpr hidx) ?_ ?_ ?_).symm
  · intro j _ hji
    rw [testBit_clearBit hx hidx]
    simp [Ne.symm hji]
  · rw [testBit_clearBit hx hidx]
    simp
  · exact hb

lemma popBits_mem : ∀ (fuel : Nat) {x : Nat}, x < 2 ^ 64 → popCount x ≤ fuel →
    ∀ j, (j ∈ popBits fuel x ↔ x.testBit j = true) := by
  intro fuel
  induction fuel with
  | zero =>
    intro x hx hc j
    have hx0 : x = 0 := popCount_eq_zero.mp (Nat.le_zero.mp hc)
    subst hx0
    simp [popBits]
  | succ fuel ih =>
    intro x hx hc j
    by_cases hx0 : x = 0
    · subst hx0
      simp [popBits]
    · obtain ⟨htz, hbit, _⟩ := trailingZeros64_spec hx0 hx
      have hstep := popCount_clearBit hx htz hbit
      have hand : x &&& compl64 (shl64 1 (trailingZeros64 x)) < 2 ^ 64 :=
        Nat.and_lt_two_pow _ (by
          rw [shl64_one htz]
          exact Nat.xor_lt_two_pow (by rw [Full_eq]; omega)
            (Nat.pow_lt_pow_right (by norm_num) htz))
      have hih := ih hand (by omega) j
      have hunfold : popBits (fuel + 1) x =
          trailingZeros64 x ::
            popBits fuel (x &&& compl64 (shl64 1 (trailingZeros64 x))) := by
        simp [popBits, hx0]
      rw [hunfold, List.mem_cons, hih, testBit_clearBit hx htz]
      constructor
      · rintro (rfl | h)
        · exact hbit
        · simp only [Bool.and_eq_true] at h
          exact h.1
      · intro h
        by_cases hj : trailingZeros64 x = j
        · exact Or.inl hj.symm
        · exact Or.inr (by simp [h, hj])

lemma popBits_64_mem {x : Nat} (hx : x < 2 ^ 64) (j : Nat) :
    j ∈ popBits 64 x ↔ x.testBit j = true :=
  popBits_mem 64 hx (popCount_le_64 hx) j

lemma toIndex_moveFromIndex (j : Nat) : (MoveFromIndex j).ToIndex = j := by
  simp only [MoveFromIndex, Move.ToIndex]
  omega

lemma compl64_lt {x : Nat} (hx : x < 2 ^ 64) : compl64 x < 2 ^ 64 :=
  Nat.xor_lt_two_pow (by rw [Full_eq]; omega) hx

lemma getWinningMoves_lt {board : Board} {pID : Int}
    (hocc : board.Occupied < 2 ^ 64) : GetWinningMoves board pID < 2 ^ 64 := by
  rw [GetWinningMoves, getWinningMovesBB]
  exact Nat.and_lt_two_pow _ (compl64_lt hocc)

lemma getWinningMoves_empty {board : Board} {pID : Int} {j : Nat}
    (hocc : board.Occupied < 2 ^ 64)
    (h : (GetWinningMoves board pID).testBit j = true) :
    board.Occupied.testBit j = false := by
  rw [GetWinningMoves, getWinningMovesBB, Nat.testBit_and,
    testBit_compl64 hocc, Bool.and_eq_true, Bool.and_eq_true] at h
  rcases h.2.2 with h2
  simpa using h2

/-- C2: when the next active player has no winning cell the mover is
unrestricted (`GetValidMoves` returns the Go `nil`); otherwise the returned
forced-move list consists exactly of the cells of
`threats ||| my_wins`, and each such cell is an empty cell of the board. -/
theorem C2_forced_move_set (board : Board) (currentPID nextPID : Int)
    (hocc : board.Occupied < 2 ^ 64) :
    (GetWinningMoves board nextPID = 0 →
      GetValidMoves board currentPID nextPID = none) ∧
    (GetWinningMoves board nextPID ≠ 0 →
      ∃ ms, GetValidMoves board currentPID nextPID = some ms ∧
        (∀ m ∈ ms,
          (GetWinningMoves board nextPID |||
              GetWinningMoves board currentPID).testBit m.ToIndex = true ∧
          board.Occupied.testBit m.ToIndex = false) ∧
        (∀ j, (GetWinningMoves board nextPID |||
            GetWinningMoves board currentPID).testBit j = true →
          MoveFromIndex j ∈ ms)) := by
  constructor
  · intro h0
    simp [GetValidMoves, h0]
  · intro h0
    have hcomb : GetWinningMoves board nextPID ||| GetWinningMoves board currentPID
        < 2 ^ 64 :=
      Nat.or_lt_two_pow (getWinningMoves_lt hocc) (getWinningMoves_lt hocc)
    refine ⟨(popBits 64 (GetWinningMoves board nextPID |||
        GetWinningMoves board currentPID)).map MoveFromIndex, ?_, ?_, ?_⟩
    · simp [GetValidMoves, h0]
    · intro m hm
      obtain ⟨j, hj, rfl⟩ := List.mem_map.mp hm
      have hbit := (popBits_64_mem hcomb j).mp hj
      rw [toIndex_moveFromIndex]
      refine ⟨hbit, ?_⟩
      rw [Nat.testBit_or, Bool.or_eq_true] at hbit
      rcases hbit with hb | hb
      · exact getWinningMoves_empty hocc hb
      · exact getWinningMoves_empty hocc hb
    · intro j hj
      exact List.mem_map.mpr ⟨j, (popBits_64_mem hcomb j).mpr hj, rfl⟩

/-- Witness for C2 at a concrete input: the next player (id 1) holds A1,
B1, C1, so cell D1 is a threat; the mover (id 0) has no winning cell and
the forced-move list is exactly that cell. -/
theorem C2_forced_move_set_witness :
    ((⟨0, 7, 0, 7⟩ : Board).Occupied < 2 ^ 64 ∧
      GetWinningMoves ⟨0, 7, 0, 7⟩ 1 ≠ 0) ∧
    (∃ ms, GetValidMoves ⟨0, 7, 0, 7⟩ 0 1 = some ms ∧
      (∀ m ∈ ms,
        (GetWinningMoves ⟨0, 7, 0, 7⟩ 1 |||
            GetWinningMoves ⟨0, 7, 0, 7⟩ 0).testBit m.ToIndex = true ∧
        (⟨0, 7, 0, 7⟩ : Board).Occupied.testBit m.ToIndex = false) ∧
      (∀ j, (GetWinningMoves ⟨0, 7, 0, 7⟩ 1 |||
          GetWinningMoves ⟨0, 7, 0, 7⟩ 0).testBit j = true →
        MoveFromIndex j ∈ ms)) :=
  ⟨⟨by decide, by decide⟩,
    (C2_forced_move_set ⟨0, 7, 0, 7⟩ 0 1 (by decide)).2 (by decide)⟩

lemma and_and_compl64 {w : Nat} (hw : w < 2 ^ 64) (l : Nat) :
    w &&& (l &&& compl64 w) = 0 := by
  apply Nat.eq_of_testBit_eq
  intro j
  rw [Nat.testBit_and, Nat.testBit_and, testBit_compl64 hw, Nat.zero_testBit]
  cases hjb : w.testBit j <;> simp [hjb]

lemma laneW_lt {b e s mR1 mR2 mR3 mL1 mL2 mL3 : Nat} (he : e < 2 ^ 64) :
    laneW b e s mR1 mR2 mR3 mL1 mL2 mL3 < 2 ^ 64 :=
  lt_of_le_of_lt Nat.and_le_left he

lemma avxW_lt {b e : Nat} (he : e < 2 ^ 64) :
    (getWinsAndLossesAVX2 b e).1 < 2 ^ 64 := by
  rw [getWinsAndLossesAVX2]
  exact Nat.or_lt_two_pow
    (Nat.or_lt_two_pow (Nat.or_lt_two_pow (laneW_lt he) (laneW_lt he)) (laneW_lt he))
    (laneW_lt he)

lemma shl64_lt (x k : Nat) : shl64 x k < 2 ^ 64 := by
  rw [shl64]
  exact Nat.mod_lt _ (by positivity)

lemma slowFold_lt (bb empty : Nat) :
    ∀ (l : List Nat) (acc : Nat × Nat), acc.1 < 2 ^ 64 → acc.2 < 2 ^ 64 →
      (l.foldl (slowStep bb empty) acc).1 < 2 ^ 64 ∧
      (l.foldl (slowStep bb empty) acc).2 < 2 ^ 64 := by
  intro l
  induction l with
  | nil => exact fun acc h1 h2 => ⟨h1, h2⟩
  | cons i t ih =>
    intro acc h1 h2
    have hstep : (slowStep bb empty acc i).1 < 2 ^ 64 ∧
        (slowStep bb empty acc i).2 < 2 ^ 64 := by
      rw [slowStep]
      split
      · exact ⟨h1, h2⟩
      · split
        · exact ⟨Nat.or_lt_two_pow h1 (shl64_lt 1 i), h2⟩
        · split
          · exact ⟨h1, Nat.or_lt_two_pow h2 (shl64_lt 1 i)⟩
          · exact ⟨h1, h2⟩
    exact ih _ hstep.1 hstep.2

/-- C5: the win mask and the lose mask returned by the extractor are
disjoint, both for the AVX2 kernel after the final `lose &= !wins` masking
of the `GetWinsAndLosses` wrapper, and for the naive enumeration
`slowGetWinsAndLosses` (whose final step is `l & ^w`). -/
theorem C5_win_lose_disjoint (b e : Nat) (hb : b < 2 ^ 64) (he : e < 2 ^ 64) :
    (GetWinsAndLosses b e).1 &&& (GetWinsAndLosses b e).2 = 0 ∧
    (slowGetWinsAndLosses b e).1 &&& (slowGetWinsAndLosses b e).2 = 0 := by
  constructor
  · exact and_and_compl64 (avxW_lt he) _
  · exact and_and_compl64 ((slowFold_lt b e (List.range 64) (0, 0)
      (by positivity) (by positivity)).1) _

/-- Witness for C5 at a concrete input: the stones B1, C1, D1 and the empty
cell A1, where the candidate cell completes both a four-run and a
three-run; the masks of both extractors are nonetheless disjoint. -/
theorem C5_win_lose_disjoint_witness :
    ((0xE : Nat) < 2 ^ 64 ∧ (1 : Nat) < 2 ^ 64) ∧
    ((GetWinsAndLosses 0xE 1).1 &&& (GetWinsAndLosses 0xE 1).2 = 0 ∧
     (slowGetWinsAndLosses 0xE 1).1 &&& (slowGetWinsAndLosses 0xE 1).2 = 0) :=
  ⟨⟨by decide, by decide⟩, C5_win_lose_disjoint 0xE 1 (by decide) (by decide)⟩

lemma and_shl64_one_eq_zero {x i : Nat} (hi : i < 64) :
    (x &&& shl64 1 i = 0) ↔ x.testBit i = false := by
  rw [shl64_one hi]
  constructor
  · intro h
    have := congrArg (Nat.testBit · i) h
    simpa [Nat.testBit_and, Nat.testBit_two_pow] using this
  · intro h
    apply Nat.eq_of_testBit_eq
    intro j
    rw [Nat.testBit_and, Nat.testBit_two_pow, Nat.zero_testBit]
    by_cases hij : i = j
    · subst hij
      simp [h]
    · simp [hij]

lemma getD_findIdxOr0 {l : List Int} {x : Int} (h : x ∈ l) :
    l.getD (findIdxOr0 l x) 0 = x := by
  rw [findIdxOr0_eq_findIdx h]
  have hlt : l.findIdx (· == x) < l.length :=
    List.findIdx_lt_length_of_exists ⟨x, h, by simp⟩
  rw [List.getD_eq_getElem?_getD, List.getElem?_eq_getElem hlt]
  have := @List.findIdx_getElem _ (· == x) l hlt
  simpa using this

lemma two_le_countP {l : List Nat} {p : Nat → Bool} {j k : Nat}
    (hnd : l.Nodup) (hjk : j ≠ k) (hj : j ∈ l) (hk : k ∈ l)
    (hpj : p j = true) (hpk : p k = true) : 2 ≤ l.countP p := by
  induction l with
  | nil => cases hj
  | cons a t ih =>
    have hnd' := (List.nodup_cons.mp hnd).2
    have hna := (List.nodup_cons.mp hnd).1
    rcases List.mem_cons.mp hj with rfl | hjt
    · have hkt : k ∈ t := by
        rcases List.mem_cons.mp hk with rfl | hkt
        · exact absurd rfl hjk
        · exact hkt
      have h1 : 0 < t.countP p := List.countP_pos_iff.mpr ⟨k, hkt, hpk⟩
      rw [List.countP_cons, hpj]
      simp only [if_pos]
      omega
    · rcases List.mem_cons.mp hk with rfl | hkt
      · have h1 : 0 < t.countP p := List.countP_pos_iff.mpr ⟨j, hjt, hpj⟩
        rw [List.countP_cons, hpk]
        simp only [if_pos]
        omega
      · have := ih hnd' hjt hkt
        rw [List.countP_cons]
        omega

lemma tz_eq_of_submask_single {w f : Nat} (hw : w ≠ 0) (hw64 : w < 2 ^ 64)
    (hf64 : f < 2 ^ 64) (hsub : w &&& f = w) (hpc : popCount f = 1) :
    trailingZeros64 w = trailingZeros64 f := by
  have hf : f ≠ 0 := fun h => by simp [h, popCount_zero] at hpc
  obtain ⟨hwlt, hwbit, _⟩ := trailingZeros64_spec hw hw64
  obtain ⟨hflt, hfbit, _⟩ := trailingZeros64_spec hf hf64
  have hfw : f.testBit (trailingZeros64 w) = true := by
    have h := congrArg (Nat.testBit · (trailingZeros64 w)) hsub
    simpa [Nat.testBit_and, hwbit] using h
  by_contra hne
  have h2 : 2 ≤ (List.range 64).countP (f.testBit ·) :=
    two_le_countP (List.nodup_range 64) hne
      (List.mem_range.mpr hwlt) (List.mem_range.mpr hflt) hfw hfbit
  rw [popCount_eq_countP hf64] at hpc
  omega

/-- C7: the wasm `applyMove` fails exactly when the target cell is already
occupied, or when the forced-move mask is nonempty and the cell lies
outside it; on failure the game state is returned unchanged. -/
theorem C7_applyMove_rejects (gs : GameState) (idx : Nat) (hidx : idx < 64) :
    ((applyMoveW gs idx).1 = false ↔
      gs.board.Occupied.testBit idx = true ∨
        (GetForcedMoves gs.board gs.ActiveIDs (findIdxOr0 gs.ActiveIDs gs.PlayerID) ≠ 0 ∧
          (GetForcedMoves gs.board gs.ActiveIDs
            (findIdxOr0 gs.ActiveIDs gs.PlayerID)).testBit idx = false)) ∧
    ((applyMoveW gs idx).1 = false → (applyMoveW gs idx).2 = gs) := by
  by_cases h1 : gs.board.Occupied &&& shl64 1 idx = 0
  · by_cases h2 : GetForcedMoves gs.board gs.ActiveIDs
        (findIdxOr0 gs.ActiveIDs gs.PlayerID) ≠ 0 ∧
        GetForcedMoves gs.board gs.ActiveIDs
          (findIdxOr0 gs.ActiveIDs gs.PlayerID) &&& shl64 1 idx = 0
    · have hres : applyMoveW gs idx = (false, gs) := by
        simp only [applyMoveW]
        rw [if_neg (by simpa using h1), if_pos h2]
      rw [hres]
      have hbit := (and_shl64_one_eq_zero hidx).mp h2.2
      exact ⟨⟨fun _ => Or.inr ⟨h2.1, hbit⟩, fun _ => rfl⟩, fun _ => rfl⟩
    · have hres : applyMoveW gs idx =
          (true, gs.ApplyMove (MoveFromIndex idx)) := by
        simp only [applyMoveW]
        rw [if_neg (by simpa using h1), if_neg h2]
      rw [hres]
      have hocc : gs.board.Occupied.testBit idx = false :=
        (and_shl64_one_eq_zero hidx).mp h1
      constructor
      · constructor
        · intro h
          exact absurd h (by simp)
        · rintro (h | ⟨hf, hb⟩)
          · rw [hocc] at h
            exact absurd h (by simp)
          · exact absurd ((and_shl64_one_eq_zero hidx).mpr hb) (fun hz => h2 ⟨hf, hz⟩)
      · intro h
        exact absurd h (by simp)
  · have hres : applyMoveW gs idx = (false, gs) := by
      simp only [applyMoveW]
      rw [if_pos (by simpa using h1)]
    rw [hres]
    have hbit : gs.board.Occupied.testBit idx = true := by
      by_contra h
      exact h1 ((and_shl64_one_eq_zero hidx).mpr (Bool.eq_false_iff.mpr h))
    exact ⟨⟨fun _ => Or.inl hbit, fun _ => rfl⟩, fun _ => rfl⟩

/-- Witness for C7 at a concrete input: cell 0 is occupied, so the move is
rejected and the state is unchanged. -/
theorem C7_applyMove_rejects_witness :
    (0 : Nat) < 64 ∧
    ((applyMoveW ⟨⟨1, 0, 0, 1⟩, 0, 7, 0, -1⟩ 0).1 = false ↔
      (⟨1, 0, 0, 1⟩ : Board).Occupied.testBit 0 = true ∨
        (GetForcedMoves ⟨1, 0, 0, 1⟩ (GameState.ActiveIDs ⟨⟨1, 0, 0, 1⟩, 0, 7, 0, -1⟩)
            (findIdxOr0 (GameState.ActiveIDs ⟨⟨1, 0, 0, 1⟩, 0, 7, 0, -1⟩) 0) ≠ 0 ∧
          (GetForcedMoves ⟨1, 0, 0, 1⟩ (GameState.ActiveIDs ⟨⟨1, 0, 0, 1⟩, 0, 7, 0, -1⟩)
            (findIdxOr0 (GameState.ActiveIDs ⟨⟨1, 0, 0, 1⟩, 0, 7, 0, -1⟩) 0)).testBit 0
            = false)) ∧
    ((applyMoveW ⟨⟨1, 0, 0, 1⟩, 0, 7, 0, -1⟩ 0).1 = false →
      (applyMoveW ⟨⟨1, 0, 0, 1⟩, 0, 7, 0, -1⟩ 0).2 = ⟨⟨1, 0, 0, 1⟩, 0, 7, 0, -1⟩) :=
  ⟨by decide, C7_applyMove_rejects ⟨⟨1, 0, 0, 1⟩, 0, 7, 0, -1⟩ 0 (by decide)⟩

/-- C8: whenever the mover has a winning cell (nonzero win mask from the
extractor), `getBestMove` returns the lowest set bit of that mask before
any tree search runs: the result does not depend on the `search`
parameter. -/
theorem C8_best_move_win_fast_path (search : Board → List Int → Nat → Move)
    (gs : GameState) (hocc : gs.board.Occupied < 2 ^ 64)
    (hmem : gs.PlayerID ∈ gs.ActiveIDs)
    (hwins : (GetWinsAndLosses (gs.board.GetPlayerBoard gs.PlayerID)
      (compl64 gs.board.Occupied)).1 ≠ 0) :
    getBestMoveW search gs =
      trailingZeros64 ((GetWinsAndLosses (gs.board.GetPlayerBoard gs.PlayerID)
        (compl64 gs.board.Occupied)).1) := by
  have hcurr : gs.ActiveIDs.getD (findIdxOr0 gs.ActiveIDs gs.PlayerID) 0 = gs.PlayerID :=
    getD_findIdxOr0 hmem
  have hw64 : (GetWinsAndLosses (gs.board.GetPlayerBoard gs.PlayerID)
      (compl64 gs.board.Occupied)).1 < 2 ^ 64 := by
    rw [GetWinsAndLosses]
    exact avxW_lt (compl64_lt hocc)
  set w := (GetWinsAndLosses (gs.board.GetPlayerBoard gs.PlayerID)
      (compl64 gs.board.Occupied)).1 with hwdef
  set next := gs.ActiveIDs.getD
      ((findIdxOr0 gs.ActiveIDs gs.PlayerID + 1) % gs.ActiveIDs.length) 0 with hnext
  set threats := (GetWinsAndLosses (gs.board.GetPlayerBoard next)
      (compl64 gs.board.Occupied)).1 with hthreats
  have hforced : GetForcedMoves gs.board gs.ActiveIDs
      (findIdxOr0 gs.ActiveIDs gs.PlayerID) =
      if threats = 0 then 0 else threats ||| w := by
    rw [GetForcedMoves]
    simp only [← hnext, hcurr, ← hthreats, ← hwdef]
  by_cases ht : threats = 0
  · have hf0 : GetForcedMoves gs.board gs.ActiveIDs
        (findIdxOr0 gs.ActiveIDs gs.PlayerID) = 0 := by rw [hforced, if_pos ht]
    rw [getBestMoveW, hf0]
    simp [hwins]
  · have hf : GetForcedMoves gs.board gs.ActiveIDs
        (findIdxOr0 gs.ActiveIDs gs.PlayerID) = threats ||| w := by
      rw [hforced, if_neg ht]
    have hfne : threats ||| w ≠ 0 := by
      intro h
      have hth : threats = 0 := by
        apply Nat.eq_of_testBit_eq
        intro j
        have := congrArg (Nat.testBit · j) h
        simp only [Nat.testBit_or, Nat.zero_testBit] at this ⊢
        cases htj : threats.testBit j
        · rfl
        · rw [htj] at this
          simpa using this
      exact ht hth
    by_cases hpc : popCount (threats ||| w) = 1
    · have hsub : w &&& (threats ||| w) = w := by
        apply Nat.eq_of_testBit_eq
        intro j
        rw [Nat.testBit_and, Nat.testBit_or]
        cases hwj : w.testBit j <;> simp [hwj]
      have hor64 : threats ||| w < 2 ^ 64 := by
        rw [hthreats, GetWinsAndLosses]
        exact Nat.or_lt_two_pow (avxW_lt (compl64_lt hocc)) hw64
      have htzeq := tz_eq_of_submask_single hwins hw64 hor64 hsub hpc
      have hfin : getBestMoveW search gs = trailingZeros64 (threats ||| w) := by
        simp only [getBestMoveW]
        rw [hf, if_pos ⟨hfne, hpc⟩]
      rw [hfin, htzeq]
    · have hfin : getBestMoveW search gs = trailingZeros64 w := by
        simp only [getBestMoveW]
        rw [hf, if_neg (fun hc => hpc hc.2), ← hwdef, if_pos hwins]
      exact hfin

/-- Witness for C8 at a concrete input: the mover (player 0) holds A1, B1,
C1 and the next player has no threat; `getBestMove` returns cell 3 = D1,
the lowest bit of the mover's win mask, for an arbitrary search stub. -/
theorem C8_best_move_win_fast_path_witness :
    ((⟨7, 0, 0, 7⟩ : Board).Occupied < 2 ^ 64 ∧
      (0 : Int) ∈ (GameState.ActiveIDs ⟨⟨7, 0, 0, 7⟩, 0, 7, 0, -1⟩) ∧
      (GetWinsAndLosses ((⟨7, 0, 0, 7⟩ : Board).GetPlayerBoard 0)
        (compl64 (⟨7, 0, 0, 7⟩ : Board).Occupied)).1 ≠ 0) ∧
    getBestMoveW (fun _ _ _ => ⟨0, 0⟩) ⟨⟨7, 0, 0, 7⟩, 0, 7, 0, -1⟩ =
      trailingZeros64 ((GetWinsAndLosses ((⟨7, 0, 0, 7⟩ : Board).GetPlayerBoard 0)
        (compl64 (⟨7, 0, 0, 7⟩ : Board).Occupied)).1) ∧
    trailingZeros64 ((GetWinsAndLosses ((⟨7, 0, 0, 7⟩ : Board).GetPlayerBoard 0)
      (compl64 (⟨7, 0, 0, 7⟩ : Board).Occupied)).1) = 3 :=
  ⟨⟨by decide, by decide, by decide⟩,
    C8_best_move_win_fast_path (fun _ _ _ => ⟨0, 0⟩) ⟨⟨7, 0, 0, 7⟩, 0, 7, 0, -1⟩
      (by decide) (by decide) (by decide), by decide⟩

lemma foldBest_spec : ∀ (l : List (Move × Nat)) (acc : Int × Move),
    ((∀ p ∈ l, (p.2 : Int) ≤ acc.1) ∧ l.foldl selectStep acc = acc) ∨
    (∃ i, ∃ hi : i < l.length,
      l.foldl selectStep acc = (((l.get ⟨i, hi⟩).2 : Int), (l.get ⟨i, hi⟩).1) ∧
      acc.1 < ((l.get ⟨i, hi⟩).2 : Int) ∧
      (∀ j (hj : j < l.length), (l.get ⟨j, hj⟩).2 ≤ (l.get ⟨i, hi⟩).2) ∧
      (∀ j (hj : j < i), (l.get ⟨j, Nat.lt_trans hj hi⟩).2 < (l.get ⟨i, hi⟩).2)) := by
  intro l
  induction l with
  | nil => exact fun acc => Or.inl ⟨fun p hp => absurd hp (List.not_mem_nil p), rfl⟩
  | cons p t ih =>
    intro acc
    by_cases hp : ((p.2 : Int) > acc.1)
    · have hstep : selectStep acc p = ((p.2 : Int), p.1) := by
        rw [selectStep, if_pos hp]
      rcases ih ((p.2 : Int), p.1) with ⟨hall, heq⟩ | ⟨i, hi, heq, hacc, hmax, hfirst⟩
      · refine Or.inr ⟨0, by simp, ?_, by simpa using hp, ?_, ?_⟩
        · simp only [List.foldl_cons, hstep, heq]
          rfl
        · intro j hj
          cases j with
          | zero => exact le_refl _
          | succ j =>
            have hjt : j < t.length := by simpa using hj
            have := hall (t.get ⟨j, hjt⟩) (List.get_mem t j hjt)
            simp only [List.get_cons_succ, List.get_cons_zero] at this ⊢
            exact_mod_cast this
        · intro j hj
          omega
      · refine Or.inr ⟨i + 1, by simpa using hi, ?_, ?_, ?_, ?_⟩
        · simp only [List.foldl_cons, hstep]
          exact heq
        · have : (p.2 : Int) ≤ (t.get ⟨i, hi⟩).2 := le_of_lt hacc
          simp only [List.get_cons_succ]
          omega
        · intro j hj
          cases j with
          | zero =>
            simp only [List.get_cons_succ, List.get_cons_zero]
            have h1 : (p.2 : Int) < ((t.get ⟨i, hi⟩).2 : Int) := hacc
            exact_mod_cast le_of_lt h1
          | succ j =>
            simp only [List.get_cons_succ]
            exact hmax j (by simpa using hj)
        · intro j hj
          cases j with
          | zero =>
            simp only [List.get_cons_succ, List.get_cons_zero]
            have h1 : (p.2 : Int) < ((t.get ⟨i, hi⟩).2 : Int) := hacc
            exact_mod_cast h1
          | succ j =>
            simp only [List.get_cons_succ]
            exact hfirst j (by omega)
    · have hstep : selectStep acc p = acc := by
        rw [selectStep, if_neg hp]
      rcases ih acc with ⟨hall, heq⟩ | ⟨i, hi, heq, hacc, hmax, hfirst⟩
      · refine Or.inl ⟨?_, by simp only [List.foldl_cons, hstep]; exact heq⟩
        intro q hq
        rcases List.mem_cons.mp hq with rfl | hqt
        · omega
        · exact hall q hqt
      · refine Or.inr ⟨i + 1, by simpa using hi, ?_, hacc, ?_, ?_⟩
        · simp only [List.foldl_cons, hstep]
          exact heq
        · intro j hj
          cases j with
          | zero =>
            simp only [List.get_cons_succ, List.get_cons_zero]
            have : (p.2 : Int) ≤ acc.1 := by omega
            have h2 : (p.2 : Int) ≤ (t.get ⟨i, hi⟩).2 := le_trans this (le_of_lt hacc)
            exact_mod_cast h2
          | succ j =>
            simp only [List.get_cons_succ]
            exact hmax j (by simpa using hj)
        · intro j hj
          cases j with
          | zero =>
            simp only [List.get_cons_succ, List.get_cons_zero]
            have : (p.2 : Int) ≤ acc.1 := by omega
            have h2 : (p.2 : Int) < (t.get ⟨i, hi⟩).2 := lt_of_le_of_lt this hacc
            exact_mod_cast h2
          | succ j =>
            simp only [List.get_cons_succ]
            exact hfirst j (by omega)

/-- C9 (amended): the move returned by the final selection loop is a root
child edge whose visit count is maximal among all root children, and among
equally visited children the one encountered first in the map's iteration
order is returned. -/
theorem C9_best_child_max_visits (children : List (Move × Nat))
    (h : children ≠ []) :
    ∃ i, ∃ hi : i < children.length,
      selectBestMove children = (children.get ⟨i, hi⟩).1 ∧
      (∀ j (hj : j < children.length),
        (children.get ⟨j, hj⟩).2 ≤ (children.get ⟨i, hi⟩).2) ∧
      (∀ j (hj : j < i),
        (children.get ⟨j, Nat.lt_trans hj hi⟩).2 < (children.get ⟨i, hi⟩).2) := by
  rcases foldBest_spec children (-1, ⟨0, 0⟩) with ⟨hall, _⟩ | ⟨i, hi, heq, _, hmax, hfirst⟩
  · obtain ⟨q, hq⟩ := List.exists_mem_of_ne_nil children h
    have := hall q hq
    simp at this
    omega
  · exact ⟨i, hi, by rw [selectBestMove, heq], hmax, hfirst⟩

/-- Witness for C9 (amended) at a concrete input: a single child with one
visit is returned. -/
theorem C9_best_child_max_visits_witness :
    ([((⟨0, 3⟩ : Move), 1)] ≠ ([] : List (Move × Nat))) ∧
    (∃ i, ∃ hi : i < [((⟨0, 3⟩ : Move), 1)].length,
      selectBestMove [((⟨0, 3⟩ : Move), 1)] = ([((⟨0, 3⟩ : Move), 1)].get ⟨i, hi⟩).1 ∧
      (∀ j (hj : j < [((⟨0, 3⟩ : Move), 1)].length),
        ([((⟨0, 3⟩ : Move), 1)].get ⟨j, hj⟩).2 ≤ ([((⟨0, 3⟩ : Move), 1)].get ⟨i, hi⟩).2) ∧
      (∀ j (hj : j < i),
        ([((⟨0, 3⟩ : Move), 1)].get ⟨j, Nat.lt_trans hj hi⟩).2 <
          ([((⟨0, 3⟩ : Move), 1)].get ⟨i, hi⟩).2)) :=
  ⟨by decide, C9_best_child_max_visits [((⟨0, 3⟩ : Move), 1)] (by decide)⟩

/-- Counterexample to C9 as stated: the children map holds two equally
visited moves; in insertion (expansion) order the list is
`[(A1, 1), (B1, 1)]`, but the loop run on the iteration order
`[(B1, 1), (A1, 1)]` — a permutation the unspecified Go map iteration may
produce — returns B1, not the earliest-expanded child A1.  Ties are
therefore not broken by insertion order. -/
theorem C9_insertion_order_counterexample :
    ([((⟨0, 1⟩ : Move), 1), (⟨0, 0⟩, 1)].Perm [((⟨0, 0⟩ : Move), 1), (⟨0, 1⟩, 1)]) ∧
    selectBestMove [((⟨0, 0⟩ : Move), 1), (⟨0, 1⟩, 1)] = ⟨0, 0⟩ ∧
    selectBestMove [((⟨0, 1⟩ : Move), 1), (⟨0, 0⟩, 1)] = ⟨0, 1⟩ ∧
    ((⟨0, 1⟩ : Move) ≠ ⟨0, 0⟩) := by
  refine ⟨?_, by decide, by decide, by decide⟩
  exact List.Perm.swap _ _ _

lemma and_pred_odd (k : Nat) : (2 * k + 1) &&& (2 * k) = 2 * k := by
  apply Nat.eq_of_testBit_eq
  intro j
  cases j with
  | zero =>
    rw [Nat.testBit_and]
    simp [Nat.testBit_zero, Nat.mul_add_mod, Nat.mul_mod_right]
  | succ j =>
    rw [Nat.testBit_and, Nat.testBit_add_one, Nat.testBit_add_one]
    have h1 : (2 * k + 1) / 2 = k := by omega
    have h2 : 2 * k / 2 = k := by omega
    rw [h1, h2, Bool.and_self]

lemma and_pred_even (k : Nat) (hk : k ≠ 0) :
    (2 * k) &&& (2 * k - 1) = 2 * (k &&& (k - 1)) := by
  apply Nat.eq_of_testBit_eq
  intro j
  cases j with
  | zero =>
    rw [Nat.testBit_and]
    simp [Nat.testBit_zero, Nat.mul_mod_right]
  | succ j =>
    rw [Nat.testBit_and, Nat.testBit_add_one, Nat.testBit_add_one,
      Nat.testBit_add_one]
    have h1 : 2 * k / 2 = k := by omega
    have h2 : (2 * k - 1) / 2 = k - 1 := by omega
    have h3 : 2 * (k &&& (k - 1)) / 2 = k &&& (k - 1) := by omega
    rw [h1, h2, h3, Nat.testBit_and]

lemma popCount_two_mul (k : Nat) : popCount (2 * k) = popCount k := by
  by_cases hk : k = 0
  · simp [hk, popCount_zero]
  · rw [popCount_ne_zero (by omega)]
    have h1 : 2 * k % 2 = 0 := Nat.mul_mod_right 2 k
    have h2 : 2 * k / 2 = k := by omega
    rw [h1, h2, Nat.zero_add]

lemma popCount_two_mul_add_one (k : Nat) :
    popCount (2 * k + 1) = popCount k + 1 := by
  rw [popCount_ne_zero (by omega)]
  have h1 : (2 * k + 1) % 2 = 1 := by omega
  have h2 : (2 * k + 1) / 2 = k := by omega
  rw [h1, h2]
  omega

lemma popCount_and_pred {x : Nat} (hx : x ≠ 0) :
    popCount (x &&& (x - 1)) + 1 = popCount x := by
  induction x using Nat.strong_induction_on with
  | _ x ih =>
    rcases Nat.even_or_odd x with he | ho
    · obtain ⟨k, hk⟩ := he
      have hk2 : x = 2 * k := by omega
      have hkne : k ≠ 0 := by omega
      rw [hk2, and_pred_even k hkne, popCount_two_mul,
        popCount_two_mul, ih k (by omega) hkne]
    · obtain ⟨k, hk⟩ := ho
      rw [hk, Nat.add_sub_cancel, and_pred_odd, popCount_two_mul,
        popCount_two_mul_add_one]

lemma clearIter_submask : ∀ (p : Nat) {x j : Nat},
    (clearLowestBit^[p] x).testBit j = true → x.testBit j = true := by
  intro p
  induction p with
  | zero => exact fun h => h
  | succ p ih =>
    intro x j h
    rw [Function.iterate_succ_apply'] at h
    rw [clearLowestBit, Nat.testBit_and, Bool.and_eq_true] at h
    exact ih h.1

lemma clearIter_le : ∀ (p x : Nat), clearLowestBit^[p] x ≤ x := by
  intro p
  induction p with
  | zero => exact fun x => le_refl x
  | succ p ih =>
    intro x
    rw [Function.iterate_succ_apply']
    exact le_trans Nat.and_le_left (ih x)

lemma clearIter_popCount : ∀ (p : Nat) {x : Nat}, p ≤ popCount x →
    popCount (clearLowestBit^[p] x) = popCount x - p := by
  intro p
  induction p with
  | zero => exact fun _ => by simp
  | succ p ih =>
    intro x hp
    rw [Function.iterate_succ_apply]
    have hx : x ≠ 0 := by
      intro h
      rw [h, popCount_zero] at hp
      omega
    have hstep : popCount (clearLowestBit x) + 1 = popCount x := by
      rw [clearLowestBit]
      exact popCount_and_pred hx
    rw [ih (by omega)]
    omega

lemma board_set_Occupied (b : Board) (idx : Nat) (pID : Int) :
    (b.Set idx pID).Occupied = b.Occupied ||| shl64 1 idx := by
  rw [Board.Set]
  split_ifs <;> rfl

lemma countP_lt_length {l : List Nat} {p : Nat → Bool} {i : Nat}
    (hi : i ∈ l) (hpi : p i = false) : l.countP p < l.length := by
  rcases Nat.lt_or_ge (l.countP p) l.length with h | h
  · exact h
  · exfalso
    have heq : l.countP p = l.length := le_antisymm (List.countP_le_length _) h
    have := List.countP_eq_length.mp heq i hi
    rw [hpi] at this
    exact Bool.false_ne_true this

lemma runSimAux_isSome (rng : Nat → Nat) : ∀ (fuel step : Nat) (board : Board)
    (players : List Int) (curr : Int), players ≠ [] →
    board.Occupied < 2 ^ 64 → 64 - popCount board.Occupied < fuel →
    (runSimAux rng fuel step board players curr).isSome = true := by
  intro fuel
  induction fuel with
  | zero =>
    intro step board players curr _ _ hfuel
    omega
  | succ fuel ih =>
    intro step board players curr hne hocc hfuel
    rw [runSimAux]
    by_cases h1 : players.length = 1
    · rw [if_pos h1]
      rfl
    · rw [if_neg h1]
      set pIdx := findIdxOr0 players curr with hpIdx
      set nextP := players.getD ((pIdx + 1) % players.length) 0 with hnextP
      set movesBitboard := if GetWinningMoves board nextP ≠ 0 then
          GetWinningMoves board nextP ||| GetWinningMoves board curr
        else compl64 board.Occupied with hmoves
      by_cases h2 : movesBitboard = 0
      · rw [if_pos h2]
        rfl
      · rw [if_neg h2]
        by_cases h3 : popCount movesBitboard = 0
        · rw [if_pos h3]
          rfl
        · rw [if_neg h3]
          have hm64 : movesBitboard < 2 ^ 64 := by
            rw [hmoves]
            split
            · exact Nat.or_lt_two_pow (getWinningMoves_lt hocc)
                (getWinningMoves_lt hocc)
            · exact compl64_lt hocc
          have hmempty : ∀ j, movesBitboard.testBit j = true →
              board.Occupied.testBit j = false := by
            intro j hj
            rw [hmoves] at hj
            by_cases ht : GetWinningMoves board nextP ≠ 0
            · rw [if_pos ht, Nat.testBit_or, Bool.or_eq_true] at hj
              rcases hj with hj | hj
              · exact getWinningMoves_empty hocc hj
              · exact getWinningMoves_empty hocc hj
            · rw [if_neg ht, testBit_compl64 hocc, Bool.and_eq_true] at hj
              simpa using hj.2
          set pick := rng step % popCount movesBitboard with hpick
          have hpicklt : pick < popCount movesBitboard :=
            Nat.mod_lt _ (Nat.pos_of_ne_zero h3)
          set temp := clearLowestBit^[pick] movesBitboard with htemp
          have htpc : popCount temp = popCount movesBitboard - pick :=
            clearIter_popCount pick (le_of_lt hpicklt)
          have htne : temp ≠ 0 := by
            intro h
            rw [h, popCount_zero] at htpc
            omega
          have ht64 : temp < 2 ^ 64 := lt_of_le_of_lt (clearIter_le pick _) hm64
          obtain ⟨hidx64, hidxbit, _⟩ := trailingZeros64_spec htne ht64
          set selectedIdx := trailingZeros64 temp with hsel
          have hmbit : movesBitboard.testBit selectedIdx = true :=
            clearIter_submask pick hidxbit
          have hoccbit : board.Occupied.testBit selectedIdx = false :=
            hmempty _ hmbit
          set board2 := board.Set selectedIdx curr with hboard2
          have hocc2eq : board2.Occupied = board.Occupied ||| 2 ^ selectedIdx := by
            rw [hboard2, board_set_Occupied, shl64_one hidx64]
          have hocc2 : board2.Occupied < 2 ^ 64 := by
            rw [hocc2eq]
            exact Nat.or_lt_two_pow hocc (Nat.pow_lt_pow_right (by norm_num) hidx64)
          have hpc2 : popCount board2.Occupied = popCount board.Occupied + 1 := by
            rw [hocc2eq]
            exact popCount_or_two_pow hocc hidx64 hoccbit
          have hpcbound : popCount board.Occupied < 64 := by
            rw [popCount_eq_countP hocc]
            exact countP_lt_length (List.mem_range.mpr hidx64) hoccbit
          have hfuel2 : 64 - popCount board2.Occupied < fuel := by
            rw [hpc2]
            omega
          by_cases h4 : CheckWin (board2.GetPlayerBoard curr) = true
          · rw [if_pos h4]
            rfl
          · rw [if_neg h4]
            by_cases h5 : CheckLose (board2.GetPlayerBoard curr) = true
            · rw [if_pos h5]
              by_cases h6 : (players.eraseIdx pIdx).length = 1
              · rw [if_pos h6]
                rfl
              · rw [if_neg h6]
                apply ih
                · intro hnil
                  have hlen0 : (players.eraseIdx pIdx).length = 0 := by
                    rw [hnil]
                    rfl
                  have hlen : players.length ≠ 0 := fun h =>
                    hne (List.length_eq_zero.mp h)
                  have hli := List.length_eraseIdx players pIdx
                  by_cases hpl : pIdx < players.length
                  · rw [if_pos hpl] at hli
                    omega
                  · rw [if_neg hpl] at hli
                    omega
                · exact hocc2
                · exact hfuel2
            · rw [if_neg h5]
              exact ih (step + 1) board2 players _ hne hocc2 hfuel2

/-- C10: the rollout `RunSimulation` terminates for every board, nonempty
active list and random stream: each loop iteration either returns a result
or places a stone on a previously empty cell, so 65 units of fuel (one
more than the cell count) always produce a result. -/
theorem C10_rollout_terminates (rng : Nat → Nat) (board : Board)
    (players : List Int) (curr : Int) (hne : players ≠ [])
    (hocc : board.Occupied < 2 ^ 64) :
    (RunSimulation rng board players curr).isSome = true := by
  rw [RunSimulation]
  exact runSimAux_isSome rng 65 0 board players curr hne hocc (by
    have : 64 - popCount board.Occupied ≤ 64 := by omega
    omega)

/-- Witness for C10 at a concrete input: a full rollout from the empty
board with all three players returns a result (no fuel exhaustion) for
the constant-zero random stream. -/
theorem C10_rollout_terminates_witness :
    (([0, 1, 2] : List Int) ≠ [] ∧ (Board.Occupied {}) < 2 ^ 64) ∧
    (RunSimulation (fun _ => 0) {} [0, 1, 2] 0).isSome = true :=
  ⟨⟨by decide, by decide⟩,
    C10_rollout_terminates (fun _ => 0) {} [0, 1, 2] 0 (by decide) (by decide)⟩

lemma testBit_split {b : Nat} (hb : b < 2 ^ 64) (p : Nat) :
    b.testBit p = (decide (p < 64) && b.testBit p) := by
  by_cases h : p < 64
  · simp [h]
  · simp [h, testBit_high_false hb (Nat.le_of_not_lt h)]

lemma laneW_testBit {b : Nat} (e d : Nat) (mR1 mR2 mR3 mL1 mL2 mL3 : Nat)
    (hb : b < 2 ^ 64) (i : Nat) :
    (laneW b e d mR1 mR2 mR3 mL1 mL2 mL3).testBit i =
      (e.testBit i && FlaneW i mR1 mR2 mR3 mL1 mL2 mL3 (yvar b i (3 * d))
        (yvar b i (2 * d)) (yvar b i d) (xvar b i d) (xvar b i (2 * d))
        (xvar b i (3 * d))) := by
  simp only [laneW, Nat.testBit_or, Nat.testBit_and, Nat.testBit_shiftRight,
    testBit_shl64]
  conv_lhs => rw [testBit_split hb (d + i), testBit_split hb (2 * d + i),
    testBit_split hb (3 * d + i)]
  simp only [FlaneW, xvar, yvar]

lemma laneL_testBit {b : Nat} (e d : Nat) (mR1 mR2 mL1 mL2 : Nat)
    (hb : b < 2 ^ 64) (i : Nat) :
    (laneL b e d mR1 mR2 mL1 mL2).testBit i =
      (e.testBit i && FlaneL i mR1 mR2 mL1 mL2 (yvar b i (2 * d)) (yvar b i d)
        (xvar b i d) (xvar b i (2 * d))) := by
  simp only [laneL, Nat.testBit_or, Nat.testBit_and, Nat.testBit_shiftRight,
    testBit_shl64]
  conv_lhs => rw [testBit_split hb (d + i), testBit_split hb (2 * d + i)]
  simp only [FlaneL, xvar, yvar]

lemma dirThreats_testBit {b : Nat} (d : Nat) (mR1 mR2 mR3 mL1 mL2 mL3 : Nat)
    (hb : b < 2 ^ 64) (i : Nat) (hi : i < 64) :
    (dirThreats b d mR1 mR2 mR3 mL1 mL2 mL3).testBit i =
      FdirW d i mR1 mR2 mR3 mL1 mL2 mL3 (yvar b i (3 * d)) (yvar b i (2 * d))
        (yvar b i d) (xvar b i d) (xvar b i (2 * d)) (xvar b i (3 * d)) := by
  simp only [dirThreats, Nat.testBit_or, Nat.testBit_and, Nat.testBit_shiftRight,
    testBit_shl64]
  by_cases h1 : d ≤ i
  · by_cases h2 : 2 * d ≤ i
    · by_cases h3 : 3 * d ≤ i
      · rw [show d + (i - 3 * d) = i - 2 * d from by omega,
          show 2 * d + (i - 3 * d) = i - d from by omega,
          show d + (i - 2 * d) = i - d from by omega,
          show 3 * d + (i - 2 * d) = d + i from by omega,
          show 2 * d + (i - d) = d + i from by omega,
          show 3 * d + (i - d) = 2 * d + i from by omega]
        conv_lhs => rw [testBit_split hb (d + i), testBit_split hb (2 * d + i),
          testBit_split hb (3 * d + i)]
        simp only [FdirW, xvar, yvar, hi, h1, h2, h3, decide_True, Bool.true_and]
      · rw [show d + (i - 2 * d) = i - d from by omega,
          show 3 * d + (i - 2 * d) = d + i from by omega,
          show 2 * d + (i - d) = d + i from by omega,
          show 3 * d + (i - d) = 2 * d + i from by omega]
        conv_lhs => rw [testBit_split hb (d + i), testBit_split hb (2 * d + i),
          testBit_split hb (3 * d + i)]
        simp only [FdirW, xvar, yvar, hi, h1, h2, h3, decide_True, decide_False,
          Bool.true_and, Bool.false_and, Bool.and_false, Bool.false_or,
          Bool.or_false]
    · have h3 : ¬ 3 * d ≤ i := by omega
      rw [show 2 * d + (i - d) = d + i from by omega,
        show 3 * d + (i - d) = 2 * d + i from by omega]
      conv_lhs => rw [testBit_split hb (d + i), testBit_split hb (2 * d + i),
        testBit_split hb (3 * d + i)]
      simp only [FdirW, xvar, yvar, hi, h1, h2, h3, decide_True, decide_False,
        Bool.true_and, Bool.false_and, Bool.and_false, Bool.false_or,
        Bool.or_false]
  · have h2 : ¬ 2 * d ≤ i := by omega
    have h3 : ¬ 3 * d ≤ i := by omega
    conv_lhs => rw [testBit_split hb (d + i), testBit_split hb (2 * d + i),
      testBit_split hb (3 * d + i)]
    simp only [FdirW, xvar, yvar, hi, h1, h2, h3, decide_True, decide_False,
      Bool.true_and, Bool.false_and, Bool.and_false, Bool.false_or,
      Bool.or_false]

lemma any_congr {α : Type} {l : List α} {p q : α → Bool}
    (h : ∀ a ∈ l, p a = q a) : l.any p = l.any q := by
  induction l with
  | nil => rfl
  | cons a t ih =>
    rw [List.any_cons, List.any_cons, h a (List.mem_cons_self a t),
      ih fun x hx => h x (List.mem_cons_of_mem a hx)]

lemma slowTerm_eq {b : Nat} (i : Nat) (hi : i < 64) (hb : b < 2 ^ 64)
    (dr dc : Int) (d : Nat) (hd : dr * 8 + dc = (d : Int))
    (t : Int) (htl : -3 ≤ t) (htu : t ≤ 3) :
    (if inRange8 ((↑(i / 8) : Int) + t * dr) && inRange8 ((↑(i % 8) : Int) + t * dc) &&
        ((decide ((↑(i / 8) : Int) + t * dr = (↑(i / 8) : Int)) &&
          decide ((↑(i % 8) : Int) + t * dc = (↑(i % 8) : Int))) ||
          b.testBit
            (((↑(i / 8) : Int) + t * dr) * 8 + ((↑(i % 8) : Int) + t * dc)).toNat)
      then (1 : Nat) else 0)
    = (if inRange8 ((↑(i / 8) : Int) + t * dr) && inRange8 ((↑(i % 8) : Int) + t * dc) &&
        ((decide ((↑(i / 8) : Int) + t * dr = (↑(i / 8) : Int)) &&
          decide ((↑(i % 8) : Int) + t * dc = (↑(i % 8) : Int))) ||
          sel6 (yvar b i (3 * d)) (yvar b i (2 * d)) (yvar b i d) (xvar b i d)
            (xvar b i (2 * d)) (xvar b i (3 * d)) t)
      then (1 : Nat) else 0) := by
  by_cases hg : (inRange8 ((↑(i / 8) : Int) + t * dr) &&
      inRange8 ((↑(i % 8) : Int) + t * dc)) = true
  · simp only [inRange8, Bool.and_eq_true, decide_eq_true_eq] at hg
    obtain ⟨⟨hr0, hr8⟩, hc0, hc8⟩ := hg
    interval_cases t
    · have hge : 3 * d ≤ i := by omega
      have hpos : (((↑(i / 8) : Int) + (-3) * dr) * 8 + ((↑(i % 8) : Int) + (-3) * dc))
          = ((i - 3 * d : Nat) : Int) := by omega
      rw [hpos, Int.toNat_natCast]
      simp [sel6, yvar, hge]
    · have hge : 2 * d ≤ i := by omega
      have hpos : (((↑(i / 8) : Int) + (-2) * dr) * 8 + ((↑(i % 8) : Int) + (-2) * dc))
          = ((i - 2 * d : Nat) : Int) := by omega
      rw [hpos, Int.toNat_natCast]
      simp [sel6, yvar, hge]
    · have hge : d ≤ i := by omega
      have hpos : (((↑(i / 8) : Int) + (-1) * dr) * 8 + ((↑(i % 8) : Int) + (-1) * dc))
          = ((i - d : Nat) : Int) := by omega
      rw [hpos, Int.toNat_natCast]
      simp [sel6, yvar, hge]
    · simp [sel6]
    · have hlt : d + i < 64 := by omega
      have hpos : (((↑(i / 8) : Int) + 1 * dr) * 8 + ((↑(i % 8) : Int) + 1 * dc))
          = ((d + i : Nat) : Int) := by omega
      rw [hpos, Int.toNat_natCast]
      simp [sel6, xvar, hlt]
    · have hlt : 2 * d + i < 64 := by omega
      have hpos : (((↑(i / 8) : Int) + 2 * dr) * 8 + ((↑(i % 8) : Int) + 2 * dc))
          = ((2 * d + i : Nat) : Int) := by omega
      rw [hpos, Int.toNat_natCast]
      simp [sel6, xvar, hlt]
    · have hlt : 3 * d + i < 64 := by omega
      have hpos : (((↑(i / 8) : Int) + 3 * dr) * 8 + ((↑(i % 8) : Int) + 3 * dc))
          = ((3 * d + i : Nat) : Int) := by omega
      rw [hpos, Int.toNat_natCast]
      simp [sel6, xvar, hlt]
  · have hg' : (inRange8 ((↑(i / 8) : Int) + t * dr) &&
        inRange8 ((↑(i % 8) : Int) + t * dc)) = false :=
      Bool.eq_false_iff.mpr hg
    rw [hg']
    simp

lemma slowTermLose_eq {b : Nat} (i : Nat) (hi : i < 64) (hb : b < 2 ^ 64)
    (dr dc : Int) (d : Nat) (hd : dr * 8 + dc = (d : Int))
    (t : Int) (htl : -2 ≤ t) (htu : t ≤ 2) :
    (if inRange8 ((↑(i / 8) : Int) + t * dr) && inRange8 ((↑(i % 8) : Int) + t * dc) &&
        ((decide ((↑(i / 8) : Int) + t * dr = (↑(i / 8) : Int)) &&
          decide ((↑(i % 8) : Int) + t * dc = (↑(i % 8) : Int))) ||
          b.testBit
            (((↑(i / 8) : Int) + t * dr) * 8 + ((↑(i % 8) : Int) + t * dc)).toNat)
      then (1 : Nat) else 0)
    = (if inRange8 ((↑(i / 8) : Int) + t * dr) && inRange8 ((↑(i % 8) : Int) + t * dc) &&
        ((decide ((↑(i / 8) : Int) + t * dr = (↑(i / 8) : Int)) &&
          decide ((↑(i % 8) : Int) + t * dc = (↑(i % 8) : Int))) ||
          sel6 false (yvar b i (2 * d)) (yvar b i d) (xvar b i d)
            (xvar b i (2 * d)) false t)
      then (1 : Nat) else 0) := by
  by_cases hg : (inRange8 ((↑(i / 8) : Int) + t * dr) &&
      inRange8 ((↑(i % 8) : Int) + t * dc)) = true
  · simp only [inRange8, Bool.and_eq_true, decide_eq_true_eq] at hg
    obtain ⟨⟨hr0, hr8⟩, hc0, hc8⟩ := hg
    interval_cases t
    · have hge : 2 * d ≤ i := by omega
      have hpos : (((↑(i / 8) : Int) + (-2) * dr) * 8 + ((↑(i % 8) : Int) + (-2) * dc))
          = ((i - 2 * d : Nat) : Int) := by omega
      rw [hpos, Int.toNat_natCast]
      simp [sel6, yvar, hge]
    · have hge : d ≤ i := by omega
      have hpos : (((↑(i / 8) : Int) + (-1) * dr) * 8 + ((↑(i % 8) : Int) + (-1) * dc))
          = ((i - d : Nat) : Int) := by omega
      rw [hpos, Int.toNat_natCast]
      simp [sel6, yvar, hge]
    · simp [sel6]
    · have hlt : d + i < 64 := by omega
      have hpos : (((↑(i / 8) : Int) + 1 * dr) * 8 + ((↑(i % 8) : Int) + 1 * dc))
          = ((d + i : Nat) : Int) := by omega
      rw [hpos, Int.toNat_natCast]
      simp [sel6, xvar, hlt]
    · have hlt : 2 * d + i < 64 := by omega
      have hpos : (((↑(i / 8) : Int) + 2 * dr) * 8 + ((↑(i % 8) : Int) + 2 * dc))
          = ((2 * d + i : Nat) : Int) := by omega
      rw [hpos, Int.toNat_natCast]
      simp [sel6, xvar, hlt]
  · have hg' : (inRange8 ((↑(i / 8) : Int) + t * dr) &&
        inRange8 ((↑(i % 8) : Int) + t * dc)) = false :=
      Bool.eq_false_iff.mpr hg
    rw [hg']
    simp

lemma cellWin_decomp {b : Nat} (i : Nat) (hi : i < 64) (hb : b < 2 ^ 64) :
    cellWin b i =
      (slowWinVar (↑(i / 8)) (↑(i % 8)) 0 1 (yvar b i (3 * 1)) (yvar b i (2 * 1))
          (yvar b i 1) (xvar b i 1) (xvar b i (2 * 1)) (xvar b i (3 * 1)) ||
        (slowWinVar (↑(i / 8)) (↑(i % 8)) 1 0 (yvar b i (3 * 8)) (yvar b i (2 * 8))
          (yvar b i 8) (xvar b i 8) (xvar b i (2 * 8)) (xvar b i (3 * 8)) ||
          (slowWinVar (↑(i / 8)) (↑(i % 8)) 1 1 (yvar b i (3 * 9)) (yvar b i (2 * 9))
            (yvar b i 9) (xvar b i 9) (xvar b i (2 * 9)) (xvar b i (3 * 9)) ||
            slowWinVar (↑(i / 8)) (↑(i % 8)) 1 (-1) (yvar b i (3 * 7)) (yvar b i (2 * 7))
              (yvar b i 7) (xvar b i 7) (xvar b i (2 * 7)) (xvar b i (3 * 7))))) := by
  have hdir : ∀ (dr dc : Int) (d : Nat), dr * 8 + dc = (d : Int) →
      (([(-3 : Int), -2, -1, 0].any fun so =>
        decide (slowCount b (↑(i / 8)) (↑(i % 8)) dr dc so 4 = 4)) =
      slowWinVar (↑(i / 8)) (↑(i % 8)) dr dc (yvar b i (3 * d)) (yvar b i (2 * d))
        (yvar b i d) (xvar b i d) (xvar b i (2 * d)) (xvar b i (3 * d))) := by
    intro dr dc d hd
    rw [slowWinVar]
    apply any_congr
    intro so hso
    have hso' : -3 ≤ so ∧ so ≤ 0 := by
      simp only [List.mem_cons, List.not_mem_nil, or_false] at hso
      rcases hso with rfl | rfl | rfl | rfl <;> norm_num
    have hsum : slowCount b (↑(i / 8)) (↑(i % 8)) dr dc so 4 =
        ((List.range 4).map fun (k : Nat) =>
          let nr := (↑(i / 8) : Int) + (so + (k : Int)) * dr
          let nc := (↑(i % 8) : Int) + (so + (k : Int)) * dc
          if inRange8 nr && inRange8 nc &&
              ((decide (nr = (↑(i / 8) : Int)) && decide (nc = (↑(i % 8) : Int))) ||
                sel6 (yvar b i (3 * d)) (yvar b i (2 * d)) (yvar b i d) (xvar b i d)
                  (xvar b i (2 * d)) (xvar b i (3 * d)) (so + (k : Int)))
            then (1 : Nat) else 0).sum := by
      rw [slowCount]
      refine congrArg List.sum (List.map_congr_left ?_)
      intro k hk
      have hk4 : k < 4 := by simpa using hk
      exact slowTerm_eq i hi hb dr dc d hd (so + (k : Int)) (by omega) (by omega)
    rw [hsum]
  have hany4 : ∀ p : Int × Int → Bool,
      slowDirections.any p = (p (0, 1) || (p (1, 0) || (p (1, 1) || p (1, -1)))) := by
    intro p
    simp [slowDirections]
  rw [cellWin, hany4]
  dsimp only
  rw [hdir 0 1 1 (by norm_num), hdir 1 0 8 (by norm_num), hdir 1 1 9 (by norm_num),
    hdir 1 (-1) 7 (by norm_num)]

lemma cellLose_decomp {b : Nat} (i : Nat) (hi : i < 64) (hb : b < 2 ^ 64) :
    cellLose b i =
      (slowLoseVar (↑(i / 8)) (↑(i % 8)) 0 1 (yvar b i (2 * 1)) (yvar b i 1)
          (xvar b i 1) (xvar b i (2 * 1)) ||
        (slowLoseVar (↑(i / 8)) (↑(i % 8)) 1 0 (yvar b i (2 * 8)) (yvar b i 8)
          (xvar b i 8) (xvar b i (2 * 8)) ||
          (slowLoseVar (↑(i / 8)) (↑(i % 8)) 1 1 (yvar b i (2 * 9)) (yvar b i 9)
            (xvar b i 9) (xvar b i (2 * 9)) ||
            slowLoseVar (↑(i / 8)) (↑(i % 8)) 1 (-1) (yvar b i (2 * 7)) (yvar b i 7)
              (xvar b i 7) (xvar b i (2 * 7))))) := by
  have hdir : ∀ (dr dc : Int) (d : Nat), dr * 8 + dc = (d : Int) →
      (([(-2 : Int), -1, 0].any fun so =>
        decide (slowCount b (↑(i / 8)) (↑(i % 8)) dr dc so 3 = 3)) =
      slowLoseVar (↑(i / 8)) (↑(i % 8)) dr dc (yvar b i (2 * d)) (yvar b i d)
        (xvar b i d) (xvar b i (2 * d))) := by
    intro dr dc d hd
    rw [slowLoseVar]
    apply any_congr
    intro so hso
    have hso' : -2 ≤ so ∧ so ≤ 0 := by
      simp only [List.mem_cons, List.not_mem_nil, or_false] at hso
      rcases hso with rfl | rfl | rfl <;> norm_num
    have hsum : slowCount b (↑(i / 8)) (↑(i % 8)) dr dc so 3 =
        ((List.range 3).map fun (k : Nat) =>
          let nr := (↑(i / 8) : Int) + (so + (k : Int)) * dr
          let nc := (↑(i % 8) : Int) + (so + (k : Int)) * dc
          if inRange8 nr && inRange8 nc &&
              ((decide (nr = (↑(i / 8) : Int)) && decide (nc = (↑(i % 8) : Int))) ||
                sel6 false (yvar b i (2 * d)) (yvar b i d) (xvar b i d)
                  (xvar b i (2 * d)) false (so + (k : Int)))
            then (1 : Nat) else 0).sum := by
      rw [slowCount]
      refine congrArg List.sum (List.map_congr_left ?_)
      intro k hk
      have hk3 : k < 3 := by simpa using hk
      exact slowTermLose_eq i hi hb dr dc d hd (so + (k : Int)) (by omega) (by omega)
    rw [hsum]
  have hany4 : ∀ p : Int × Int → Bool,
      slowDirections.any p = (p (0, 1) || (p (1, 0) || (p (1, 1) || p (1, -1)))) := by
    intro p
    simp [slowDirections]
  rw [cellLose, hany4]
  dsimp only
  rw [hdir 0 1 1 (by norm_num), hdir 1 0 8 (by norm_num), hdir 1 1 9 (by norm_num),
    hdir 1 (-1) 7 (by norm_num)]


/-- Converts a Bool equation to the equivalence of the coerced sides. -/
lemma bool_eq_of_iff {a b : Bool} (h : (a = true) ↔ (b = true)) : a = b := by
  cases a <;> cases b <;> simp_all

/-- A sum of four indicator terms equals 4 exactly when all four
conditions hold. -/
lemma sum4_decide (a b c d : Bool) :
    decide ((if a then (1:Nat) else 0) + ((if b then (1:Nat) else 0) +
      ((if c then (1:Nat) else 0) + ((if d then (1:Nat) else 0) + 0))) = 4) =
      (a && (b && (c && d))) := by
  cases a <;> cases b <;> cases c <;> cases d <;> rfl

/-- A sum of three indicator terms equals 3 exactly when all three
conditions hold. -/
lemma sum3_decide (a b c : Bool) :
    decide ((if a then (1:Nat) else 0) + ((if b then (1:Nat) else 0) +
      ((if c then (1:Nat) else 0) + 0)) = 3) = (a && (b && c)) := by
  cases a <;> cases b <;> cases c <;> rfl

/-- Normal form of `slowWinVar` in the horizontal direction. -/
lemma slowWinVar_horiz (row col : Nat) (hr : row < 8) (hc : col < 8)
    (y3 y2 y1 x1 x2 x3 : Bool) :
    slowWinVar (↑row) (↑col) 0 1 y3 y2 y1 x1 x2 x3 = slowWH col y3 y2 y1 x1 x2 x3 := by
  apply bool_eq_of_iff
  have hr4 : List.range 4 = [0, 1, 2, 3] := rfl
  have tc1 : col < 11 := by omega
  have tc2 : col < 10 := by omega
  have tc3 : col < 9 := by omega
  have pc1 : (0 : Int) ≤ ↑col + 1 := by omega
  have pc2 : (0 : Int) ≤ ↑col + 2 := by omega
  have pc3 : (0 : Int) ≤ ↑col + 3 := by omega
  have ec1 : ((↑col : Int) + 1 < 8) ↔ col + 1 < 8 := by omega
  have ec2 : ((↑col : Int) + 2 < 8) ↔ col + 2 < 8 := by omega
  have ec3 : ((↑col : Int) + 3 < 8) ↔ col + 3 < 8 := by omega
  simp only [slowWinVar, List.any_cons, List.any_nil, Bool.or_false, hr4,
    List.map_cons, List.map_nil, List.sum_cons, List.sum_nil]
  simp only [sum4_decide]
  norm_num [inRange8, sel6]
  simp only [slowWH, decide_eq_true_eq, tc1, tc2, tc3, pc1, pc2, pc3,
    ec1, ec2, ec3, hr, hc, and_true, true_and]

/-- Normal form of `slowWinVar` in the vertical direction. -/
lemma slowWinVar_vert (row col : Nat) (hr : row < 8) (hc : col < 8)
    (y3 y2 y1 x1 x2 x3 : Bool) :
    slowWinVar (↑row) (↑col) 1 0 y3 y2 y1 x1 x2 x3 = slowWV row y3 y2 y1 x1 x2 x3 := by
  apply bool_eq_of_iff
  have hr4 : List.range 4 = [0, 1, 2, 3] := rfl
  have tr1 : row < 11 := by omega
  have tr2 : row < 10 := by omega
  have tr3 : row < 9 := by omega
  have pr1 : (0 : Int) ≤ ↑row + 1 := by omega
  have pr2 : (0 : Int) ≤ ↑row + 2 := by omega
  have pr3 : (0 : Int) ≤ ↑row + 3 := by omega
  have er1 : ((↑row : Int) + 1 < 8) ↔ row + 1 < 8 := by omega
  have er2 : ((↑row : Int) + 2 < 8) ↔ row + 2 < 8 := by omega
  have er3 : ((↑row : Int) + 3 < 8) ↔ row + 3 < 8 := by omega
  simp only [slowWinVar, List.any_cons, List.any_nil, Bool.or_false, hr4,
    List.map_cons, List.map_nil, List.sum_cons, List.sum_nil]
  simp only [sum4_decide]
  norm_num [inRange8, sel6]
  simp only [slowWV, decide_eq_true_eq, tr1, tr2, tr3, pr1, pr2, pr3,
    er1, er2, er3, hr, hc, and_true, true_and]

/-- Normal form of `slowWinVar` in the diagonal direction. -/
lemma slowWinVar_diag (row col : Nat) (hr : row < 8) (hc : col < 8)
    (y3 y2 y1 x1 x2 x3 : Bool) :
    slowWinVar (↑row) (↑col) 1 1 y3 y2 y1 x1 x2 x3 = slowWD row col y3 y2 y1 x1 x2 x3 := by
  apply bool_eq_of_iff
  have hr4 : List.range 4 = [0, 1, 2, 3] := rfl
  have tc1 : col < 11 := by omega
  have tc2 : col < 10 := by omega
  have tc3 : col < 9 := by omega
  have tr1 : row < 11 := by omega
  have tr2 : row < 10 := by omega
  have tr3 : row < 9 := by omega
  have pc1 : (0 : Int) ≤ ↑col + 1 := by omega
  have pc2 : (0 : Int) ≤ ↑col + 2 := by omega
  have pc3 : (0 : Int) ≤ ↑col + 3 := by omega
  have pr1 : (0 : Int) ≤ ↑row + 1 := by omega
  have pr2 : (0 : Int) ≤ ↑row + 2 := by omega
  have pr3 : (0 : Int) ≤ ↑row + 3 := by omega
  have ec1 : ((↑col : Int) + 1 < 8) ↔ col + 1 < 8 := by omega
  have ec2 : ((↑col : Int) + 2 < 8) ↔ col + 2 < 8 := by omega
  have ec3 : ((↑col : Int) + 3 < 8) ↔ col + 3 < 8 := by omega
  have er1 : ((↑row : Int) + 1 < 8) ↔ row + 1 < 8 := by omega
  have er2 : ((↑row : Int) + 2 < 8) ↔ row + 2 < 8 := by omega
  have er3 : ((↑row : Int) + 3 < 8) ↔ row + 3 < 8 := by omega
  simp only [slowWinVar, List.any_cons, List.any_nil, Bool.or_false, hr4,
    List.map_cons, List.map_nil, List.sum_cons, List.sum_nil]
  simp only [sum4_decide]
  norm_num [inRange8, sel6]
  simp only [slowWD, decide_eq_true_eq, tc1, tc2, tc3, tr1, tr2, tr3,
    pc1, pc2, pc3, pr1, pr2, pr3, ec1, ec2, ec3, er1, er2, er3, hr, hc,
    and_true, true_and]

/-- Normal form of `slowWinVar` in the anti-diagonal direction. -/
lemma slowWinVar_anti (row col : Nat) (hr : row < 8) (hc : col < 8)
    (y3 y2 y1 x1 x2 x3 : Bool) :
    slowWinVar (↑row) (↑col) 1 (-1) y3 y2 y1 x1 x2 x3 = slowWA row col y3 y2 y1 x1 x2 x3 := by
  apply bool_eq_of_iff
  have hr4 : List.range 4 = [0, 1, 2, 3] := rfl
  have tc1 : col < 11 := by omega
  have tc2 : col < 10 := by omega
  have tc3 : col < 9 := by omega
  have tr1 : row < 11 := by omega
  have tr2 : row < 10 := by omega
  have tr3 : row < 9 := by omega
  have pc1 : (0 : Int) ≤ ↑col + 1 := by omega
  have pc2 : (0 : Int) ≤ ↑col + 2 := by omega
  have pc3 : (0 : Int) ≤ ↑col + 3 := by omega
  have pr1 : (0 : Int) ≤ ↑row + 1 := by omega
  have pr2 : (0 : Int) ≤ ↑row + 2 := by omega
  have pr3 : (0 : Int) ≤ ↑row + 3 := by omega
  have ec1 : ((↑col : Int) + 1 < 8) ↔ col + 1 < 8 := by omega
  have ec2 : ((↑col : Int) + 2 < 8) ↔ col + 2 < 8 := by omega
  have ec3 : ((↑col : Int) + 3 < 8) ↔ col + 3 < 8 := by omega
  have er1 : ((↑row : Int) + 1 < 8) ↔ row + 1 < 8 := by omega
  have er2 : ((↑row : Int) + 2 < 8) ↔ row + 2 < 8 := by omega
  have er3 : ((↑row : Int) + 3 < 8) ↔ row + 3 < 8 := by omega
  simp only [slowWinVar, List.any_cons, List.any_nil, Bool.or_false, hr4,
    List.map_cons, List.map_nil, List.sum_cons, List.sum_nil]
  simp only [sum4_decide]
  norm_num [inRange8, sel6]
  simp only [slowWA, decide_eq_true_eq, tc1, tc2, tc3, tr1, tr2, tr3,
    pc1, pc2, pc3, pr1, pr2, pr3, ec1, ec2, ec3, er1, er2, er3, hr, hc,
    and_true, true_and]


/-- Normal form of `slowLoseVar` in the horizontal direction. -/
lemma slowLoseVar_horiz (row col : Nat) (hr : row < 8) (hc : col < 8)
    (y2 y1 x1 x2 : Bool) :
    slowLoseVar (↑row) (↑col) 0 1 y2 y1 x1 x2 = slowLH col y2 y1 x1 x2 := by
  apply bool_eq_of_iff
  have hr3 : List.range 3 = [0, 1, 2] := rfl
  have tc1 : col < 10 := by omega
  have tc2 : col < 9 := by omega
  have pc1 : (0 : Int) ≤ ↑col + 1 := by omega
  have pc2 : (0 : Int) ≤ ↑col + 2 := by omega
  have ec1 : ((↑col : Int) + 1 < 8) ↔ col + 1 < 8 := by omega
  have ec2 : ((↑col : Int) + 2 < 8) ↔ col + 2 < 8 := by omega
  simp only [slowLoseVar, List.any_cons, List.any_nil, Bool.or_false, hr3,
    List.map_cons, List.map_nil, List.sum_cons, List.sum_nil]
  simp only [sum3_decide]
  norm_num [inRange8, sel6]
  simp only [slowLH, decide_eq_true_eq, tc1, tc2, pc1, pc2, ec1, ec2, hr, hc,
    and_true, true_and]

/-- Normal form of `slowLoseVar` in the vertical direction. -/
lemma slowLoseVar_vert (row col : Nat) (hr : row < 8) (hc : col < 8)
    (y2 y1 x1 x2 : Bool) :
    slowLoseVar (↑row) (↑col) 1 0 y2 y1 x1 x2 = slowLV row y2 y1 x1 x2 := by
  apply bool_eq_of_iff
  have hr3 : List.range 3 = [0, 1, 2] := rfl
  have tr1 : row < 10 := by omega
  have tr2 : row < 9 := by omega
  have pr1 : (0 : Int) ≤ ↑row + 1 := by omega
  have pr2 : (0 : Int) ≤ ↑row + 2 := by omega
  have er1 : ((↑row : Int) + 1 < 8) ↔ row + 1 < 8 := by omega
  have er2 : ((↑row : Int) + 2 < 8) ↔ row + 2 < 8 := by omega
  simp only [slowLoseVar, List.any_cons, List.any_nil, Bool.or_false, hr3,
    List.map_cons, List.map_nil, List.sum_cons, List.sum_nil]
  simp only [sum3_decide]
  norm_num [inRange8, sel6]
  simp only [slowLV, decide_eq_true_eq, tr1, tr2, pr1, pr2, er1, er2, hr, hc,
    and_true, true_and]

/-- Normal form of `slowLoseVar` in the diagonal direction. -/
lemma slowLoseVar_diag (row col : Nat) (hr : row < 8) (hc : col < 8)
    (y2 y1 x1 x2 : Bool) :
    slowLoseVar (↑row) (↑col) 1 1 y2 y1 x1 x2 = slowLD row col y2 y1 x1 x2 := by
  apply bool_eq_of_iff
  have hr3 : List.range 3 = [0, 1, 2] := rfl
  have tc1 : col < 10 := by omega
  have tc2 : col < 9 := by omega
  have tr1 : row < 10 := by omega
  have tr2 : row < 9 := by omega
  have pc1 : (0 : Int) ≤ ↑col + 1 := by omega
  have pc2 : (0 : Int) ≤ ↑col + 2 := by omega
  have pr1 : (0 : Int) ≤ ↑row + 1 := by omega
  have pr2 : (0 : Int) ≤ ↑row + 2 := by omega
  have ec1 : ((↑col : Int) + 1 < 8) ↔ col + 1 < 8 := by omega
  have ec2 : ((↑col : Int) + 2 < 8) ↔ col + 2 < 8 := by omega
  have er1 : ((↑row : Int) + 1 < 8) ↔ row + 1 < 8 := by omega
  have er2 : ((↑row : Int) + 2 < 8) ↔ row + 2 < 8 := by omega
  simp only [slowLoseVar, List.any_cons, List.any_nil, Bool.or_false, hr3,
    List.map_cons, List.map_nil, List.sum_cons, List.sum_nil]
  simp only [sum3_decide]
  norm_num [inRange8, sel6]
  simp only [slowLD, decide_eq_true_eq, tc1, tc2, tr1, tr2, pc1, pc2, pr1, pr2,
    ec1, ec2, er1, er2, hr, hc, and_true, true_and]

/-- Normal form of `slowLoseVar` in the anti-diagonal direction. -/
lemma slowLoseVar_anti (row col : Nat) (hr : row < 8) (hc : col < 8)
    (y2 y1 x1 x2 : Bool) :
    slowLoseVar (↑row) (↑col) 1 (-1) y2 y1 x1 x2 = slowLA row col y2 y1 x1 x2 := by
  apply bool_eq_of_iff
  have hr3 : List.range 3 = [0, 1, 2] := rfl
  have tc1 : col < 10 := by omega
  have tc2 : col < 9 := by omega
  have tr1 : row < 10 := by omega
  have tr2 : row < 9 := by omega
  have pc1 : (0 : Int) ≤ ↑col + 1 := by omega
  have pc2 : (0 : Int) ≤ ↑col + 2 := by omega
  have pr1 : (0 : Int) ≤ ↑row + 1 := by omega
  have pr2 : (0 : Int) ≤ ↑row + 2 := by omega
  have ec1 : ((↑col : Int) + 1 < 8) ↔ col + 1 < 8 := by omega
  have ec2 : ((↑col : Int) + 2 < 8) ↔ col + 2 < 8 := by omega
  have er1 : ((↑row : Int) + 1 < 8) ↔ row + 1 < 8 := by omega
  have er2 : ((↑row : Int) + 2 < 8) ↔ row + 2 < 8 := by omega
  simp only [slowLoseVar, List.any_cons, List.any_nil, Bool.or_false, hr3,
    List.map_cons, List.map_nil, List.sum_cons, List.sum_nil]
  simp only [sum3_decide]
  norm_num [inRange8, sel6]
  simp only [slowLA, decide_eq_true_eq, tc1, tc2, tr1, tr2, pc1, pc2, pr1, pr2,
    ec1, ec2, er1, er2, hr, hc, and_true, true_and]




/-- Specification of `allBool`. -/
lemma allBool_spec {p : Bool → Bool} (h : allBool p = true) : ∀ b, p b = true := by
  intro b
  simp only [allBool, Bool.and_eq_true] at h
  cases b
  · exact h.1
  · exact h.2

/-- Specification of `ballB`. -/
lemma ballB_spec {n : Nat} {p : Nat → Bool} (h : ballB n p = true) :
    ∀ i, i < n → p i = true := by
  intro i hi
  simp only [ballB, List.all_eq_true] at h
  exact h i (List.mem_range.mpr hi)

/-- A guarded read is consistent: either the read is false or its bound
holds. -/
lemma guard1 {b : Bool} {P : Prop} [Decidable P] (h : b = true → P) :
    (!b || decide P) = true := by
  cases b
  · rfl
  · simp [h rfl]

/-- Converts an exhaustive finite check into the guarded six-read bridge
statement. -/
lemma bridge6_of_check {F S : Nat → Bool → Bool → Bool → Bool → Bool → Bool → Bool}
    {o1 o2 o3 : Nat}
    (h : ballB 64 (fun i => allBool fun y3 => allBool fun y2 => allBool fun y1 =>
      allBool fun x1 => allBool fun x2 => allBool fun x3 =>
        if (!y3 || decide (o3 ≤ i)) && (!y2 || decide (o2 ≤ i)) &&
            (!y1 || decide (o1 ≤ i)) && (!x1 || decide (o1 + i < 64)) &&
            (!x2 || decide (o2 + i < 64)) && (!x3 || decide (o3 + i < 64))
          then F i y3 y2 y1 x1 x2 x3 == S i y3 y2 y1 x1 x2 x3 else true) = true) :
    ∀ i, i < 64 → ∀ y3 y2 y1 x1 x2 x3 : Bool,
      (y3 = true → o3 ≤ i) → (y2 = true → o2 ≤ i) → (y1 = true → o1 ≤ i) →
      (x1 = true → o1 + i < 64) → (x2 = true → o2 + i < 64) →
      (x3 = true → o3 + i < 64) →
      F i y3 y2 y1 x1 x2 x3 = S i y3 y2 y1 x1 x2 x3 := by
  intro i hi y3 y2 y1 x1 x2 x3 g3 g2 g1 f1 f2 f3
  have h1 := ballB_spec h i hi
  have h2 := allBool_spec h1 y3
  have h3 := allBool_spec h2 y2
  have h4 := allBool_spec h3 y1
  have h5 := allBool_spec h4 x1
  have h6 := allBool_spec h5 x2
  have h7 := allBool_spec h6 x3
  have hg : ((!y3 || decide (o3 ≤ i)) && (!y2 || decide (o2 ≤ i)) &&
      (!y1 || decide (o1 ≤ i)) && (!x1 || decide (o1 + i < 64)) &&
      (!x2 || decide (o2 + i < 64)) && (!x3 || decide (o3 + i < 64))) = true := by
    rw [guard1 g3, guard1 g2, guard1 g1, guard1 f1, guard1 f2, guard1 f3]
    rfl
  rw [hg] at h7
  simp only [if_true] at h7
  exact eq_of_beq h7

/-- Converts an exhaustive finite check into the guarded four-read bridge
statement. -/
lemma bridge4_of_check {F S : Nat → Bool → Bool → Bool → Bool → Bool}
    {o1 o2 : Nat}
    (h : ballB 64 (fun i => allBool fun y2 => allBool fun y1 =>
      allBool fun x1 => allBool fun x2 =>
        if (!y2 || decide (o2 ≤ i)) && (!y1 || decide (o1 ≤ i)) &&
            (!x1 || decide (o1 + i < 64)) && (!x2 || decide (o2 + i < 64))
          then F i y2 y1 x1 x2 == S i y2 y1 x1 x2 else true) = true) :
    ∀ i, i < 64 → ∀ y2 y1 x1 x2 : Bool,
      (y2 = true → o2 ≤ i) → (y1 = true → o1 ≤ i) →
      (x1 = true → o1 + i < 64) → (x2 = true → o2 + i < 64) →
      F i y2 y1 x1 x2 = S i y2 y1 x1 x2 := by
  intro i hi y2 y1 x1 x2 g2 g1 f1 f2
  have h1 := ballB_spec h i hi
  have h2 := allBool_spec h1 y2
  have h3 := allBool_spec h2 y1
  have h4 := allBool_spec h3 x1
  have h5 := allBool_spec h4 x2
  have hg : ((!y2 || decide (o2 ≤ i)) && (!y1 || decide (o1 ≤ i)) &&
      (!x1 || decide (o1 + i < 64)) && (!x2 || decide (o2 + i < 64))) = true := by
    rw [guard1 g2, guard1 g1, guard1 f1, guard1 f2]
    rfl
  rw [hg] at h5
  simp only [if_true] at h5
  exact eq_of_beq h5

/-- Bridge: the horizontal block of `GetWinningMoves` agrees per bit with
the naive horizontal win formula, for neighbor reads consistent with the
bit position. -/
lemma bridge_dirW_horiz : ∀ i, i < 64 → ∀ y3 y2 y1 x1 x2 x3 : Bool,
    (y3 = true → 3 ≤ i) → (y2 = true → 2 ≤ i) → (y1 = true → 1 ≤ i) →
    (x1 = true → 1 + i < 64) → (x2 = true → 2 + i < 64) →
    (x3 = true → 3 + i < 64) →
    FdirW 1 i (compl64 FileH) (compl64 (FileH ||| FileG))
      (compl64 (FileH ||| FileG ||| FileF)) (compl64 FileA)
      (compl64 (FileA ||| FileB)) (compl64 (FileA ||| FileB ||| FileC))
      y3 y2 y1 x1 x2 x3 =
    slowWH (i % 8) y3 y2 y1 x1 x2 x3 :=
  bridge6_of_check (by decide)


/-- Bridge: the vertical block of `GetWinningMoves` agrees per bit with
the naive vertical win formula. -/
lemma bridge_dirW_vert : ∀ i, i < 64 → ∀ y3 y2 y1 x1 x2 x3 : Bool,
    (y3 = true → 24 ≤ i) → (y2 = true → 16 ≤ i) → (y1 = true → 8 ≤ i) →
    (x1 = true → 8 + i < 64) → (x2 = true → 16 + i < 64) →
    (x3 = true → 24 + i < 64) →
    FdirW 8 i Full Full Full Full Full Full y3 y2 y1 x1 x2 x3 =
    slowWV (i / 8) y3 y2 y1 x1 x2 x3 :=
  bridge6_of_check (by decide)

/-- Bridge: the diagonal block of `GetWinningMoves` agrees per bit with
the naive diagonal win formula. -/
lemma bridge_dirW_diag : ∀ i, i < 64 → ∀ y3 y2 y1 x1 x2 x3 : Bool,
    (y3 = true → 27 ≤ i) → (y2 = true → 18 ≤ i) → (y1 = true → 9 ≤ i) →
    (x1 = true → 9 + i < 64) → (x2 = true → 18 + i < 64) →
    (x3 = true → 27 + i < 64) →
    FdirW 9 i (compl64 FileH) (compl64 (FileH ||| FileG))
      (compl64 (FileH ||| FileG ||| FileF)) (compl64 FileA)
      (compl64 (FileA ||| FileB)) (compl64 (FileA ||| FileB ||| FileC))
      y3 y2 y1 x1 x2 x3 =
    slowWD (i / 8) (i % 8) y3 y2 y1 x1 x2 x3 :=
  bridge6_of_check (by decide)

/-- Bridge: the anti-diagonal block of `GetWinningMoves` agrees per bit
with the naive anti-diagonal win formula. -/
lemma bridge_dirW_anti : ∀ i, i < 64 → ∀ y3 y2 y1 x1 x2 x3 : Bool,
    (y3 = true → 21 ≤ i) → (y2 = true → 14 ≤ i) → (y1 = true → 7 ≤ i) →
    (x1 = true → 7 + i < 64) → (x2 = true → 14 + i < 64) →
    (x3 = true → 21 + i < 64) →
    FdirW 7 i (compl64 FileA) (compl64 (FileA ||| FileB))
      (compl64 (FileA ||| FileB ||| FileC)) (compl64 FileH)
      (compl64 (FileH ||| FileG)) (compl64 (FileH ||| FileG ||| FileF))
      y3 y2 y1 x1 x2 x3 =
    slowWA (i / 8) (i % 8) y3 y2 y1 x1 x2 x3 :=
  bridge6_of_check (by decide)

/-- Bridge: the horizontal AVX2 win lane agrees per bit with the naive
horizontal win formula. -/
lemma bridge_laneW_horiz : ∀ i, i < 64 → ∀ y3 y2 y1 x1 x2 x3 : Bool,
    (y3 = true → 3 ≤ i) → (y2 = true → 2 ≤ i) → (y1 = true → 1 ≤ i) →
    (x1 = true → 1 + i < 64) → (x2 = true → 2 + i < 64) →
    (x3 = true → 3 + i < 64) →
    FlaneW i 0x7F7F7F7F7F7F7F7F 0x3F3F3F3F3F3F3F3F 0x1F1F1F1F1F1F1F1F
      0xFEFEFEFEFEFEFEFE 0xFCFCFCFCFCFCFCFC 0xF8F8F8F8F8F8F8F8 y3 y2 y1 x1 x2 x3 =
    slowWH (i % 8) y3 y2 y1 x1 x2 x3 :=
  bridge6_of_check (by decide)

/-- Bridge: the vertical AVX2 win lane agrees per bit with the naive
vertical win formula. -/
lemma bridge_laneW_vert : ∀ i, i < 64 → ∀ y3 y2 y1 x1 x2 x3 : Bool,
    (y3 = true → 24 ≤ i) → (y2 = true → 16 ≤ i) → (y1 = true → 8 ≤ i) →
    (x1 = true → 8 + i < 64) → (x2 = true → 16 + i < 64) →
    (x3 = true → 24 + i < 64) →
    FlaneW i Full Full Full Full Full Full y3 y2 y1 x1 x2 x3 =
    slowWV (i / 8) y3 y2 y1 x1 x2 x3 :=
  bridge6_of_check (by decide)

/-- Bridge: the diagonal AVX2 win lane agrees per bit with the naive
diagonal win formula. -/
lemma bridge_laneW_diag : ∀ i, i < 64 → ∀ y3 y2 y1 x1 x2 x3 : Bool,
    (y3 = true → 27 ≤ i) → (y2 = true → 18 ≤ i) → (y1 = true → 9 ≤ i) →
    (x1 = true → 9 + i < 64) → (x2 = true → 18 + i < 64) →
    (x3 = true → 27 + i < 64) →
    FlaneW i 0x7F7F7F7F7F7F7F7F 0x3F3F3F3F3F3F3F3F 0x1F1F1F1F1F1F1F1F
      0xFEFEFEFEFEFEFEFE 0xFCFCFCFCFCFCFCFC 0xF8F8F8F8F8F8F8F8 y3 y2 y1 x1 x2 x3 =
    slowWD (i / 8) (i % 8) y3 y2 y1 x1 x2 x3 :=
  bridge6_of_check (by decide)

/-- Bridge: the anti-diagonal AVX2 win lane agrees per bit with the naive
anti-diagonal win formula. -/
lemma bridge_laneW_anti : ∀ i, i < 64 → ∀ y3 y2 y1 x1 x2 x3 : Bool,
    (y3 = true → 21 ≤ i) → (y2 = true → 14 ≤ i) → (y1 = true → 7 ≤ i) →
    (x1 = true → 7 + i < 64) → (x2 = true → 14 + i < 64) →
    (x3 = true → 21 + i < 64) →
    FlaneW i 0xFEFEFEFEFEFEFEFE 0xFCFCFCFCFCFCFCFC 0xF8F8F8F8F8F8F8F8
      0x7F7F7F7F7F7F7F7F 0x3F3F3F3F3F3F3F3F 0x1F1F1F1F1F1F1F1F y3 y2 y1 x1 x2 x3 =
    slowWA (i / 8) (i % 8) y3 y2 y1 x1 x2 x3 :=
  bridge6_of_check (by decide)

/-- Bridge: the horizontal AVX2 loss lane agrees per bit with the naive
horizontal loss formula. -/
lemma bridge_laneL_horiz : ∀ i, i < 64 → ∀ y2 y1 x1 x2 : Bool,
    (y2 = true → 2 ≤ i) → (y1 = true → 1 ≤ i) →
    (x1 = true → 1 + i < 64) → (x2 = true → 2 + i < 64) →
    FlaneL i 0x7F7F7F7F7F7F7F7F 0x3F3F3F3F3F3F3F3F
      0xFEFEFEFEFEFEFEFE 0xFCFCFCFCFCFCFCFC y2 y1 x1 x2 =
    slowLH (i % 8) y2 y1 x1 x2 :=
  bridge4_of_check (by decide)

/-- Bridge: the vertical AVX2 loss lane agrees per bit with the naive
vertical loss formula. -/
lemma bridge_laneL_vert : ∀ i, i < 64 → ∀ y2 y1 x1 x2 : Bool,
    (y2 = true → 16 ≤ i) → (y1 = true → 8 ≤ i) →
    (x1 = true → 8 + i < 64) → (x2 = true → 16 + i < 64) →
    FlaneL i Full Full Full Full y2 y1 x1 x2 =
    slowLV (i / 8) y2 y1 x1 x2 :=
  bridge4_of_check (by decide)

/-- Bridge: the diagonal AVX2 loss lane agrees per bit with the naive
diagonal loss formula. -/
lemma bridge_laneL_diag : ∀ i, i < 64 → ∀ y2 y1 x1 x2 : Bool,
    (y2 = true → 18 ≤ i) → (y1 = true → 9 ≤ i) →
    (x1 = true → 9 + i < 64) → (x2 = true → 18 + i < 64) →
    FlaneL i 0x7F7F7F7F7F7F7F7F 0x3F3F3F3F3F3F3F3F
      0xFEFEFEFEFEFEFEFE 0xFCFCFCFCFCFCFCFC y2 y1 x1 x2 =
    slowLD (i / 8) (i % 8) y2 y1 x1 x2 :=
  bridge4_of_check (by decide)

/-- Bridge: the anti-diagonal AVX2 loss lane agrees per bit with the naive
anti-diagonal loss formula. -/
lemma bridge_laneL_anti : ∀ i, i < 64 → ∀ y2 y1 x1 x2 : Bool,
    (y2 = true → 14 ≤ i) → (y1 = true → 7 ≤ i) →
    (x1 = true → 7 + i < 64) → (x2 = true → 14 + i < 64) →
    FlaneL i 0xFEFEFEFEFEFEFEFE 0xFCFCFCFCFCFCFCFC
      0x7F7F7F7F7F7F7F7F 0x3F3F3F3F3F3F3F3F y2 y1 x1 x2 =
    slowLA (i / 8) (i % 8) y2 y1 x1 x2 :=
  bridge4_of_check (by decide)


/-- A true forward read implies its position is on the board. -/
lemma xvar_lt {b i o : Nat} (h : xvar b i o = true) : o + i < 64 := by
  simp only [xvar, Bool.and_eq_true, decide_eq_true_eq] at h
  exact h.1

/-- A true backward read implies its offset does not cross bit 0. -/
lemma yvar_le {b i o : Nat} (h : yvar b i o = true) : o ≤ i := by
  simp only [yvar, Bool.and_eq_true, decide_eq_true_eq] at h
  exact h.1

/-- One step of the naive accumulation sets bit `i` of the win word
exactly on a winning empty cell `i = a`, and of the lose word exactly on
a losing non-winning empty cell. -/
lemma slowStep_testBit (bb empty : Nat) (i a : Nat) (hi : i < 64) (ha : a < 64)
    (acc : Nat × Nat) :
    ((slowStep bb empty acc a).1.testBit i =
      (acc.1.testBit i || (decide (i = a) && (empty.testBit i && cellWin bb i)))) ∧
    ((slowStep bb empty acc a).2.testBit i =
      (acc.2.testBit i || (decide (i = a) &&
        (empty.testBit i && (!cellWin bb i && cellLose bb i))))) := by
  by_cases hia : i = a
  · subst hia
    cases he' : empty.testBit i <;> cases hw : cellWin bb i <;>
      cases hl : cellLose bb i <;>
        simp [slowStep, he', hw, hl, Nat.testBit_or, shl64_one hi,
          Nat.testBit_two_pow]
  · have hdec : decide (i = a) = false := by simp [hia]
    have hbit : (shl64 1 a).testBit i = false := by
      rw [shl64_one ha, Nat.testBit_two_pow]
      simp [Ne.symm hia]
    cases he' : empty.testBit a <;> cases hw : cellWin bb a <;>
      cases hl : cellLose bb a <;>
        simp [slowStep, he', hw, hl, Nat.testBit_or, hbit, hdec]

/-- Bitwise characterisation of the naive fold over any cell list. -/
lemma slowFold_testBit (bb empty : Nat) (i : Nat) (hi : i < 64) :
    ∀ (l : List Nat), (∀ a ∈ l, a < 64) → ∀ (acc : Nat × Nat),
      ((l.foldl (slowStep bb empty) acc).1.testBit i =
        (acc.1.testBit i || (decide (i ∈ l) && (empty.testBit i && cellWin bb i)))) ∧
      ((l.foldl (slowStep bb empty) acc).2.testBit i =
        (acc.2.testBit i || (decide (i ∈ l) &&
          (empty.testBit i && (!cellWin bb i && cellLose bb i))))) := by
  have hgen : ∀ (x da dt p : Bool),
      ((x || (da && p)) || (dt && p)) = (x || ((da || dt) && p)) := by decide
  intro l
  induction l with
  | nil => intro _ acc; simp
  | cons a t ih =>
      intro hmem acc
      have ha : a < 64 := hmem a (by simp)
      have ht : ∀ x ∈ t, x < 64 := fun x hx => hmem x (by simp [hx])
      have hstep := slowStep_testBit bb empty i a hi ha acc
      have hih := ih ht (slowStep bb empty acc a)
      simp only [List.foldl_cons]
      have hor : decide (i = a ∨ i ∈ t) = (decide (i = a) || decide (i ∈ t)) := by
        by_cases h1 : i = a <;> by_cases h2 : i ∈ t <;> simp [h1, h2]
      constructor
      · rw [hih.1, hstep.1]
        simp only [List.mem_cons]
        rw [hor]
        exact hgen _ _ _ _
      · rw [hih.2, hstep.2]
        simp only [List.mem_cons]
        rw [hor]
        exact hgen _ _ _ _

/-- Bit `i` of the naive win word: a winning empty cell. -/
lemma slowFoldW_testBit (bb empty : Nat) (i : Nat) (hi : i < 64) :
    ((List.range 64).foldl (slowStep bb empty) (0, 0)).1.testBit i =
      (empty.testBit i && cellWin bb i) := by
  have h := (slowFold_testBit bb empty i hi (List.range 64)
    (fun a ha => List.mem_range.mp ha) (0, 0)).1
  simpa [List.mem_range, hi] using h

/-- Bit `i` of the naive raw lose word: a losing, non-winning empty
cell. -/
lemma slowFoldL_testBit (bb empty : Nat) (i : Nat) (hi : i < 64) :
    ((List.range 64).foldl (slowStep bb empty) (0, 0)).2.testBit i =
      (empty.testBit i && (!cellWin bb i && cellLose bb i)) := by
  have h := (slowFold_testBit bb empty i hi (List.range 64)
    (fun a ha => List.mem_range.mp ha) (0, 0)).2
  simpa [List.mem_range, hi] using h

/-- Bit `i` of the AVX2 win word is exactly the naive per-cell win
check of the empty cell `i`. -/
lemma avxW_testBit_eq_cellWin {b e : Nat} (hb : b < 2 ^ 64) (i : Nat)
    (hi : i < 64) :
    (getWinsAndLossesAVX2 b e).1.testBit i = (e.testBit i && cellWin b i) := by
  have h8r : i / 8 < 8 := by omega
  have h8c : i % 8 < 8 := by omega
  have br1 := bridge_laneW_horiz i hi (yvar b i (3 * 1)) (yvar b i (2 * 1))
    (yvar b i 1) (xvar b i 1) (xvar b i (2 * 1)) (xvar b i (3 * 1))
    (fun h => by have := yvar_le h; omega) (fun h => by have := yvar_le h; omega)
    (fun h => by have := yvar_le h; omega) (fun h => by have := xvar_lt h; omega)
    (fun h => by have := xvar_lt h; omega) (fun h => by have := xvar_lt h; omega)
  have br8 := bridge_laneW_vert i hi (yvar b i (3 * 8)) (yvar b i (2 * 8))
    (yvar b i 8) (xvar b i 8) (xvar b i (2 * 8)) (xvar b i (3 * 8))
    (fun h => by have := yvar_le h; omega) (fun h => by have := yvar_le h; omega)
    (fun h => by have := yvar_le h; omega) (fun h => by have := xvar_lt h; omega)
    (fun h => by have := xvar_lt h; omega) (fun h => by have := xvar_lt h; omega)
  have br9 := bridge_laneW_diag i hi (yvar b i (3 * 9)) (yvar b i (2 * 9))
    (yvar b i 9) (xvar b i 9) (xvar b i (2 * 9)) (xvar b i (3 * 9))
    (fun h => by have := yvar_le h; omega) (fun h => by have := yvar_le h; omega)
    (fun h => by have := yvar_le h; omega) (fun h => by have := xvar_lt h; omega)
    (fun h => by have := xvar_lt h; omega) (fun h => by have := xvar_lt h; omega)
  have br7 := bridge_laneW_anti i hi (yvar b i (3 * 7)) (yvar b i (2 * 7))
    (yvar b i 7) (xvar b i 7) (xvar b i (2 * 7)) (xvar b i (3 * 7))
    (fun h => by have := yvar_le h; omega) (fun h => by have := yvar_le h; omega)
    (fun h => by have := yvar_le h; omega) (fun h => by have := xvar_lt h; omega)
    (fun h => by have := xvar_lt h; omega) (fun h => by have := xvar_lt h; omega)
  simp only [getWinsAndLossesAVX2]
  rw [Nat.testBit_or, Nat.testBit_or, Nat.testBit_or,
    laneW_testBit e 1 _ _ _ _ _ _ hb i, laneW_testBit e 8 _ _ _ _ _ _ hb i,
    laneW_testBit e 9 _ _ _ _ _ _ hb i, laneW_testBit e 7 _ _ _ _ _ _ hb i,
    br1, br8, br9, br7, cellWin_decomp i hi hb,
    slowWinVar_horiz (i / 8) (i % 8) h8r h8c,
    slowWinVar_vert (i / 8) (i % 8) h8r h8c,
    slowWinVar_diag (i / 8) (i % 8) h8r h8c,
    slowWinVar_anti (i / 8) (i % 8) h8r h8c]
  cases hE : e.testBit i <;> simp [Bool.or_assoc]

/-- Bit `i` of the AVX2 raw lose word is exactly the naive per-cell loss
check of the empty cell `i`. -/
lemma avxL_testBit_eq_cellLose {b e : Nat} (hb : b < 2 ^ 64) (i : Nat)
    (hi : i < 64) :
    (getWinsAndLossesAVX2 b e).2.testBit i = (e.testBit i && cellLose b i) := by
  have h8r : i / 8 < 8 := by omega
  have h8c : i % 8 < 8 := by omega
  have br1 := bridge_laneL_horiz i hi (yvar b i (2 * 1)) (yvar b i 1)
    (xvar b i 1) (xvar b i (2 * 1))
    (fun h => by have := yvar_le h; omega) (fun h => by have := yvar_le h; omega)
    (fun h => by have := xvar_lt h; omega) (fun h => by have := xvar_lt h; omega)
  have br8 := bridge_laneL_vert i hi (yvar b i (2 * 8)) (yvar b i 8)
    (xvar b i 8) (xvar b i (2 * 8))
    (fun h => by have := yvar_le h; omega) (fun h => by have := yvar_le h; omega)
    (fun h => by have := xvar_lt h; omega) (fun h => by have := xvar_lt h; omega)
  have br9 := bridge_laneL_diag i hi (yvar b i (2 * 9)) (yvar b i 9)
    (xvar b i 9) (xvar b i (2 * 9))
    (fun h => by have := yvar_le h; omega) (fun h => by have := yvar_le h; omega)
    (fun h => by have := xvar_lt h; omega) (fun h => by have := xvar_lt h; omega)
  have br7 := bridge_laneL_anti i hi (yvar b i (2 * 7)) (yvar b i 7)
    (xvar b i 7) (xvar b i (2 * 7))
    (fun h => by have := yvar_le h; omega) (fun h => by have := yvar_le h; omega)
    (fun h => by have := xvar_lt h; omega) (fun h => by have := xvar_lt h; omega)
  simp only [getWinsAndLossesAVX2]
  rw [Nat.testBit_or, Nat.testBit_or, Nat.testBit_or,
    laneL_testBit e 1 _ _ _ _ hb i, laneL_testBit e 8 _ _ _ _ hb i,
    laneL_testBit e 9 _ _ _ _ hb i, laneL_testBit e 7 _ _ _ _ hb i,
    br1, br8, br9, br7, cellLose_decomp i hi hb,
    slowLoseVar_horiz (i / 8) (i % 8) h8r h8c,
    slowLoseVar_vert (i / 8) (i % 8) h8r h8c,
    slowLoseVar_diag (i / 8) (i % 8) h8r h8c,
    slowLoseVar_anti (i / 8) (i % 8) h8r h8c]
  cases hE : e.testBit i <;> simp [Bool.or_assoc]

/-- Bit `i` of the scalar shift-and-mask win extractor is exactly the
naive per-cell win check of the empty cell `i`. -/
lemma scalarW_testBit_eq_cellWin {b e : Nat} (hb : b < 2 ^ 64) (i : Nat)
    (hi : i < 64) :
    (getWinningMovesBB b e).testBit i = (e.testBit i && cellWin b i) := by
  have h8r : i / 8 < 8 := by omega
  have h8c : i % 8 < 8 := by omega
  have br1 := bridge_dirW_horiz i hi (yvar b i (3 * 1)) (yvar b i (2 * 1))
    (yvar b i 1) (xvar b i 1) (xvar b i (2 * 1)) (xvar b i (3 * 1))
    (fun h => by have := yvar_le h; omega) (fun h => by have := yvar_le h; omega)
    (fun h => by have := yvar_le h; omega) (fun h => by have := xvar_lt h; omega)
    (fun h => by have := xvar_lt h; omega) (fun h => by have := xvar_lt h; omega)
  have br8 := bridge_dirW_vert i hi (yvar b i (3 * 8)) (yvar b i (2 * 8))
    (yvar b i 8) (xvar b i 8) (xvar b i (2 * 8)) (xvar b i (3 * 8))
    (fun h => by have := yvar_le h; omega) (fun h => by have := yvar_le h; omega)
    (fun h => by have := yvar_le h; omega) (fun h => by have := xvar_lt h; omega)
    (fun h => by have := xvar_lt h; omega) (fun h => by have := xvar_lt h; omega)
  have br9 := bridge_dirW_diag i hi (yvar b i (3 * 9)) (yvar b i (2 * 9))
    (yvar b i 9) (xvar b i 9) (xvar b i (2 * 9)) (xvar b i (3 * 9))
    (fun h => by have := yvar_le h; omega) (fun h => by have := yvar_le h; omega)
    (fun h => by have := yvar_le h; omega) (fun h => by have := xvar_lt h; omega)
    (fun h => by have := xvar_lt h; omega) (fun h => by have := xvar_lt h; omega)
  have br7 := bridge_dirW_anti i hi (yvar b i (3 * 7)) (yvar b i (2 * 7))
    (yvar b i 7) (xvar b i 7) (xvar b i (2 * 7)) (xvar b i (3 * 7))
    (fun h => by have := yvar_le h; omega) (fun h => by have := yvar_le h; omega)
    (fun h => by have := yvar_le h; omega) (fun h => by have := xvar_lt h; omega)
    (fun h => by have := xvar_lt h; omega) (fun h => by have := xvar_lt h; omega)
  simp only [getWinningMovesBB]
  rw [Nat.testBit_and, Nat.testBit_or, Nat.testBit_or, Nat.testBit_or,
    dirThreats_testBit 1 _ _ _ _ _ _ hb i hi,
    dirThreats_testBit 8 _ _ _ _ _ _ hb i hi,
    dirThreats_testBit 9 _ _ _ _ _ _ hb i hi,
    dirThreats_testBit 7 _ _ _ _ _ _ hb i hi,
    br1, br8, br9, br7, cellWin_decomp i hi hb,
    slowWinVar_horiz (i / 8) (i % 8) h8r h8c,
    slowWinVar_vert (i / 8) (i % 8) h8r h8c,
    slowWinVar_diag (i / 8) (i % 8) h8r h8c,
    slowWinVar_anti (i / 8) (i % 8) h8r h8c]
  cases hE : e.testBit i <;> simp [Bool.or_assoc]


/-- C1: for every pair of bitboards (stones, empty) with
`stones &&& empty = 0`, the bit-parallel extractor — the four-lane AVX2
kernel with its wrapper masking, and the scalar shift-and-mask win
extractor — returns exactly the win and lose cells of the naive
per-cell enumeration `slowGetWinsAndLosses`, board edges respected. -/
theorem C1_extractor_matches_naive (b e : Nat) (hb : b < 2 ^ 64)
    (he : e < 2 ^ 64) (hbe : b &&& e = 0) :
    GetWinsAndLosses b e = slowGetWinsAndLosses b e ∧
    getWinningMovesBB b e = (slowGetWinsAndLosses b e).1 := by
  have hfold := slowFold_lt b e (List.range 64) (0, 0) (by norm_num) (by norm_num)
  constructor
  · apply Prod.ext
    · apply Nat.eq_of_testBit_eq
      intro i
      simp only [GetWinsAndLosses, slowGetWinsAndLosses]
      by_cases hi : i < 64
      · rw [avxW_testBit_eq_cellWin hb i hi, slowFoldW_testBit b e i hi]
      · have h64 : 64 ≤ i := le_of_not_lt hi
        rw [testBit_high_false (avxW_lt he) h64, testBit_high_false hfold.1 h64]
    · apply Nat.eq_of_testBit_eq
      intro i
      simp only [GetWinsAndLosses, slowGetWinsAndLosses]
      by_cases hi : i < 64
      · rw [Nat.testBit_and, Nat.testBit_and,
          testBit_compl64 (avxW_lt he) i, testBit_compl64 hfold.1 i,
          avxW_testBit_eq_cellWin hb i hi, avxL_testBit_eq_cellLose hb i hi,
          slowFoldW_testBit b e i hi, slowFoldL_testBit b e i hi]
        cases hE : e.testBit i <;> cases hW : cellWin b i <;>
          cases hL : cellLose b i <;> simp [hi]
      · rw [Nat.testBit_and, Nat.testBit_and,
          testBit_compl64 (avxW_lt he) i, testBit_compl64 hfold.1 i]
        simp [hi]
  · apply Nat.eq_of_testBit_eq
    intro i
    by_cases hi : i < 64
    · simp only [slowGetWinsAndLosses]
      rw [scalarW_testBit_eq_cellWin hb i hi, slowFoldW_testBit b e i hi]
    · have h64 : 64 ≤ i := le_of_not_lt hi
      simp only [getWinningMovesBB, slowGetWinsAndLosses]
      rw [Nat.testBit_and, testBit_high_false he h64,
        testBit_high_false hfold.1 h64]
      simp

/-- Witness for C1 on the board holding stones on cells 0, 1, 2 with all
other cells empty. -/
theorem C1_extractor_matches_naive_witness :
    (7 : Nat) < 2 ^ 64 ∧ compl64 7 < 2 ^ 64 ∧ 7 &&& compl64 7 = 0 ∧
    (GetWinsAndLosses 7 (compl64 7) = slowGetWinsAndLosses 7 (compl64 7) ∧
      getWinningMovesBB 7 (compl64 7) = (slowGetWinsAndLosses 7 (compl64 7)).1) :=
  ⟨by decide, by decide, by decide,
    C1_extractor_matches_naive 7 (compl64 7) (by decide) (by decide) (by decide)⟩

end Squava
